import Mathlib

/-!
Shallow embedding of the repair-shop store defined in src/app/page.tsx.

Modelling conventions:
* Timestamps (`createdAt`, `updatedAt`) are ISO-8601 strings in the source
  (`new Date().toISOString()`); they are modelled as `String` values, and every
  operation that reads the wall clock takes the current timestamp as an
  explicit `now : String` argument.  Chronological order of ISO strings agrees
  with lexicographic string order, i.e. with `String.lt`.
* `crypto.randomUUID()` is modelled by an explicit `newId : String` argument to
  the creating operation.
* `estimatedCost` is a JavaScript number in the source; the store only moves it
  between memory and JSON text unchanged, so it is modelled as `Int` (the
  floating-point aspect of JS numbers is outside this embedding, and fractional
  JSON number literals are likewise outside the modelled grammar).
* The `localStorage` mirror written by every mutation is a write-only copy of
  the state being returned; claims C1-C10 only concern the in-memory state and
  the import/export strings, so the storage cell itself is not part of `State`.
-/

/-- `Status` from src/app/page.tsx line 9. -/
inductive Status where
  | new
  | diagnosing
  | awaitingParts
  | inProgress
  | ready
  | pickedUp
  | cancelled
deriving DecidableEq, Repr

/-- The JSON string for each status, as written in the source string literals. -/
def statusString : Status → String
  | .new => "New"
  | .diagnosing => "Diagnosing"
  | .awaitingParts => "Awaiting Parts"
  | .inProgress => "In Progress"
  | .ready => "Ready"
  | .pickedUp => "Picked Up"
  | .cancelled => "Cancelled"

def statusOfString (s : String) : Option Status :=
  if s = "New" then some .new
  else if s = "Diagnosing" then some .diagnosing
  else if s = "Awaiting Parts" then some .awaitingParts
  else if s = "In Progress" then some .inProgress
  else if s = "Ready" then some .ready
  else if s = "Picked Up" then some .pickedUp
  else if s = "Cancelled" then some .cancelled
  else none

/-- `Customer` interface (page.tsx lines 10-15). -/
structure Customer where
  id : String
  name : String
  phone : Option String
  email : Option String
deriving DecidableEq, Repr

/-- `Technician` interface (page.tsx lines 16-19). -/
structure Technician where
  id : String
  name : String
deriving DecidableEq, Repr

/-- `Device` interface (page.tsx lines 20-26). -/
structure Device where
  id : String
  type : String
  brand : Option String
  model : Option String
  serial : Option String
deriving DecidableEq, Repr

/-- `Ticket` interface (page.tsx lines 27-38). -/
structure Ticket where
  id : String
  createdAt : String
  updatedAt : String
  customerId : String
  deviceId : String
  problemDescription : String
  status : Status
  technicianId : Option String
  estimatedCost : Option Int
  notes : Option String
deriving DecidableEq, Repr

/-- The four collections owned by the store (page.tsx lines 40-44, 60-63). -/
structure State where
  customers : List Customer
  technicians : List Technician
  devices : List Device
  tickets : List Ticket
deriving DecidableEq, Repr

/-- `Omit<Customer, "id">` — the argument of `addCustomer`. -/
structure CustomerFields where
  name : String
  phone : Option String
  email : Option String
deriving DecidableEq, Repr

/-- `Omit<Technician, "id">` — the argument of `addTechnician`. -/
structure TechnicianFields where
  name : String
deriving DecidableEq, Repr

/-- `Omit<Device, "id">` — the argument of `addDevice`. -/
structure DeviceFields where
  type : String
  brand : Option String
  model : Option String
  serial : Option String
deriving DecidableEq, Repr

/-- `Omit<Ticket, "id" | "createdAt" | "updatedAt">` — the argument of `addTicket`. -/
structure TicketFields where
  customerId : String
  deviceId : String
  problemDescription : String
  status : Status
  technicianId : Option String
  estimatedCost : Option Int
  notes : Option String
deriving DecidableEq, Repr

/-- `Partial<Ticket>` — the `updates` argument of `updateTicket`.  A JS spread
copies a property only when it is present, so every field is wrapped in an
outer `Option` (`none` = property absent).  For the fields that are already
optional in `Ticket`, a present property may itself hold `undefined`
(e.g. `{ technicianId: e.target.value || undefined }` at page.tsx line 363),
hence the nested `Option`. -/
structure TicketPatch where
  id : Option String := none
  createdAt : Option String := none
  updatedAt : Option String := none
  customerId : Option String := none
  deviceId : Option String := none
  problemDescription : Option String := none
  status : Option Status := none
  technicianId : Option (Option String) := none
  estimatedCost : Option (Option Int) := none
  notes : Option (Option String) := none
deriving DecidableEq, Repr

/-- `{ ...tk, ...updates, updatedAt: new Date().toISOString() }`
(page.tsx line 134).  The `updatedAt` literal comes after the spread of
`updates`, so it wins unconditionally. -/
def mergeTicket (now : String) (tk : Ticket) (updates : TicketPatch) : Ticket :=
  { id := updates.id.getD tk.id
    createdAt := updates.createdAt.getD tk.createdAt
    updatedAt := now
    customerId := updates.customerId.getD tk.customerId
    deviceId := updates.deviceId.getD tk.deviceId
    problemDescription := updates.problemDescription.getD tk.problemDescription
    status := updates.status.getD tk.status
    technicianId := updates.technicianId.getD tk.technicianId
    estimatedCost := updates.estimatedCost.getD tk.estimatedCost
    notes := updates.notes.getD tk.notes }

/-- `addCustomer` (page.tsx lines 86-96). -/
def addCustomer (newId : String) (c : CustomerFields) (s : State) : State :=
  { s with customers :=
      { id := newId, name := c.name, phone := c.phone, email := c.email } :: s.customers }

/-- `addTechnician` (page.tsx lines 97-107). -/
def addTechnician (newId : String) (t : TechnicianFields) (s : State) : State :=
  { s with technicians := { id := newId, name := t.name } :: s.technicians }

/-- `addDevice` (page.tsx lines 108-118). -/
def addDevice (newId : String) (d : DeviceFields) (s : State) : State :=
  { s with devices :=
      { id := newId, type := d.type, brand := d.brand, model := d.model,
        serial := d.serial } :: s.devices }

/-- `addTicket` (page.tsx lines 119-130): `createdAt` and `updatedAt` are both
set to the same `now`. -/
def addTicket (newId now : String) (t : TicketFields) (s : State) : State :=
  { s with tickets :=
      { id := newId, createdAt := now, updatedAt := now,
        customerId := t.customerId, deviceId := t.deviceId,
        problemDescription := t.problemDescription, status := t.status,
        technicianId := t.technicianId, estimatedCost := t.estimatedCost,
        notes := t.notes } :: s.tickets }

/-- `updateTicket` (page.tsx lines 131-142). -/
def updateTicket (now id : String) (updates : TicketPatch) (s : State) : State :=
  { s with tickets :=
      s.tickets.map fun tk => if tk.id = id then mergeTicket now tk updates else tk }

/-- `removeTicket` (page.tsx lines 143-152): keeps the tickets with
`tk.id !== id`. -/
def removeTicket (id : String) (s : State) : State :=
  { s with tickets := s.tickets.filter fun tk => tk.id ≠ id }

/-- ASCII lowercasing, the effect of `String.prototype.toLowerCase` on the
ASCII range (non-ASCII case mapping is outside this embedding). -/
def lowerStr (s : String) : String := s.map Char.toLower

/-- The search haystack built in `filteredTickets` (page.tsx lines 247-259):
the present fields among problem description, joined customer name/phone/email,
joined device brand/model/serial and joined technician name, with falsy
(absent or empty) entries dropped by `.filter(Boolean)`, joined by a single
space and lowercased. -/
def searchText (s : State) (t : Ticket) : String :=
  let cust := s.customers.find? fun c => c.id == t.customerId
  let dev := s.devices.find? fun d => d.id == t.deviceId
  let tech := s.technicians.find? fun u => some u.id == t.technicianId
  let parts : List (Option String) :=
    [some t.problemDescription,
     cust.map Customer.name, cust.bind Customer.phone, cust.bind Customer.email,
     dev.bind Device.brand, dev.bind Device.model, dev.bind Device.serial,
     tech.map Technician.name]
  lowerStr (String.intercalate " " ((parts.filterMap id).filter fun x => x ≠ ""))

/-- `filteredTickets` (page.tsx lines 239-262).  The status filter value
the "All" choice is modelled as `none`. -/
def filteredTickets (statusFilter : Option Status) (search : String) (s : State) :
    List Ticket :=
  s.tickets.filter fun t =>
    let statusOk := match statusFilter with
      | none => true
      | some f => t.status == f
    if !statusOk then false
    else if search = "" then true
    else decide ((lowerStr search).data <:+: (searchText s t).data)

/-- The declarative reading of the ticket filter used by claim C9: the status
filter passes, and the search term is empty or its lowercasing occurs inside
the joined search text. -/
def MatchesSpec (statusFilter : Option Status) (search : String) (s : State)
    (t : Ticket) : Prop :=
  (statusFilter = none ∨ statusFilter = some t.status) ∧
    (search = "" ∨ (lowerStr search).data <:+: (searchText s t).data)

instance (statusFilter : Option Status) (search : String) (s : State)
    (t : Ticket) : Decidable (MatchesSpec statusFilter search s t) := by
  unfold MatchesSpec
  infer_instance

/-- The store operations reachable from the UI, other than import/export
(which wholesale-replaces all collections rather than mutating any ticket in
place). -/
inductive Op where
  | addCustomer (newId : String) (c : CustomerFields)
  | addTechnician (newId : String) (t : TechnicianFields)
  | addDevice (newId : String) (d : DeviceFields)
  | addTicket (newId now : String) (t : TicketFields)
  | updateTicket (now id : String) (updates : TicketPatch)
  | removeTicket (id : String)
deriving Repr

def applyOp : Op → State → State
  | .addCustomer newId c, s => addCustomer newId c s
  | .addTechnician newId t, s => addTechnician newId t s
  | .addDevice newId d, s => addDevice newId d s
  | .addTicket newId now t, s => addTicket newId now t s
  | .updateTicket now id u, s => updateTicket now id u s
  | .removeTicket id, s => removeTicket id s

def runOps (ops : List Op) (s : State) : State :=
  ops.foldl (fun st op => applyOp op st) s

/-- The ticket currently stored under a given id (first match, matching the
newest-first prepend order of the store). -/
def findTicket (id : String) (s : State) : Option Ticket :=
  s.tickets.find? fun tk => tk.id == id

/-- Benign operations relative to a tracked ticket id: ticket creation uses a
fresh id, and ticket patches leave `id` and `createdAt` absent — which is what
every call site in the source does (they only patch `status`, `technicianId`
or `estimatedCost`). -/
def GoodOp (id : String) : Op → Prop
  | .addTicket newId _ _ => newId ≠ id
  | .updateTicket _ _ u => u.id = none ∧ u.createdAt = none
  | _ => True

/- ------------------------------------------------------------------ -/
/- JSON values, printing (JSON.stringify(v, null, 2)) and parsing      -/
/- (JSON.parse), as used by exportAll/importAll.                       -/
/- ------------------------------------------------------------------ -/

/-- JSON values.  Numbers are modelled as integers: JavaScript numbers are
IEEE doubles, which are outside this embedding; every number the store
serializes round-trips as an integer, and texts containing fractional or
exponent number literals are outside the modelled grammar. -/
inductive Json where
  | null
  | bool (b : Bool)
  | num (n : Int)
  | str (s : String)
  | arr (elems : List Json)
  | obj (members : List (String × Json))

/-- Lower-case hex digit, as produced by JSON.stringify for control-character
escapes. -/
def hexChar (n : Nat) : Char :=
  match n with
  | 0 => '0' | 1 => '1' | 2 => '2' | 3 => '3' | 4 => '4'
  | 5 => '5' | 6 => '6' | 7 => '7' | 8 => '8' | 9 => '9'
  | 10 => 'a' | 11 => 'b' | 12 => 'c' | 13 => 'd' | 14 => 'e'
  | _ => 'f'

/-- The escape JSON.stringify applies to a single character inside a string
literal: quote and backslash are escaped, the five named control characters
get their short escapes, the remaining control characters become <backslash>u00XX,
everything else is emitted verbatim. -/
def escChar (c : Char) : List Char :=
  if c = '"' then ['\\', '"']
  else if c = '\\' then ['\\', '\\']
  else if c = '\x08' then ['\\', 'b']
  else if c = '\x09' then ['\\', 't']
  else if c = '\x0a' then ['\\', 'n']
  else if c = '\x0c' then ['\\', 'f']
  else if c = '\x0d' then ['\\', 'r']
  else if c.toNat < 32 then
    ['\\', 'u', '0', '0', hexChar (c.toNat / 16), hexChar (c.toNat % 16)]
  else [c]

def escBody : List Char → List Char
  | [] => []
  | c :: cs => escChar c ++ escBody cs

/-- A JSON string literal for `s`, quotes included. -/
def escStr (s : String) : List Char := '"' :: (escBody s.data ++ ['"'])

/-- Decimal digit character. -/
def digitChar (n : Nat) : Char :=
  match n with
  | 0 => '0' | 1 => '1' | 2 => '2' | 3 => '3' | 4 => '4'
  | 5 => '5' | 6 => '6' | 7 => '7' | 8 => '8' | _ => '9'

/-- Decimal digits of a natural number, most significant first. -/
def natDigits (n : Nat) : List Char :=
  if h : n < 10 then [digitChar n]
  else natDigits (n / 10) ++ [digitChar (n % 10)]
decreasing_by exact Nat.div_lt_self (by omega) (by omega)

/-- JSON.stringify of an integer number. -/
def printInt (n : Int) : List Char :=
  if n < 0 then '-' :: natDigits n.natAbs else natDigits n.natAbs

/-- `n` spaces: the indentation produced by JSON.stringify(v, null, 2). -/
def sp (n : Nat) : List Char := List.replicate n ' '

mutual

/-- The literal texts of the three JSON keyword values. -/
def jsNull : List Char := ['n', 'u', 'l', 'l']

def jsTrue : List Char := ['t', 'r', 'u', 'e']

def jsFalse : List Char := ['f', 'a', 'l', 's', 'e']

/-- The exact text of `JSON.stringify(v, null, /- indent -/ 2)` at current
indentation `ind`: non-empty arrays and objects open with a newline, indent
their entries by two more spaces, separate them by comma-newline and close on
a fresh line at the enclosing indentation; empty containers print inline. -/
def printJ (ind : Nat) : Json → List Char
  | .null => jsNull
  | .bool true => jsTrue
  | .bool false => jsFalse
  | .num n => printInt n
  | .str s => escStr s
  | .arr [] => ['[', ']']
  | .arr (x :: xs) =>
    '[' :: '\n' :: (printItemsJ (ind + 2) x xs ++ ('\n' :: (sp ind ++ [']'])))
  | .obj [] => ['{', '}']
  | .obj (m :: ms) =>
    '{' :: '\n' :: (printMembersJ (ind + 2) m ms ++ ('\n' :: (sp ind ++ ['}'])))
termination_by j => sizeOf j
decreasing_by all_goals (try simp; try omega)

def printItemsJ (ind : Nat) (x : Json) (xs : List Json) : List Char :=
  match xs with
  | [] => sp ind ++ printJ ind x
  | y :: ys => sp ind ++ (printJ ind x ++ (',' :: '\n' :: printItemsJ ind y ys))
termination_by 1 + sizeOf x + sizeOf xs
decreasing_by all_goals (try simp; try omega)

def printMembersJ (ind : Nat) (m : String × Json) (ms : List (String × Json)) :
    List Char :=
  match ms with
  | [] => sp ind ++ (escStr m.1 ++ (':' :: ' ' :: printJ ind m.2))
  | m2 :: ms2 =>
    sp ind ++ (escStr m.1 ++ (':' :: ' ' :: (printJ ind m.2 ++
      (',' :: '\n' :: printMembersJ ind m2 ms2))))
termination_by 1 + sizeOf m + sizeOf ms
decreasing_by all_goals (rcases m with ⟨mk, mv⟩; try simp; try omega)

end

mutual

/-- Fuel sufficient for the recursive-descent parser below to consume the
printed form of a value (the parser itself is total for any fuel; `JSON.parse`
needs none). -/
def jfuel : Json → Nat
  | .null => 1
  | .bool _ => 1
  | .num _ => 1
  | .str _ => 1
  | .arr xs => 1 + jfuelItems xs
  | .obj ms => 1 + jfuelMembers ms

def jfuelItems : List Json → Nat
  | [] => 0
  | x :: xs => jfuel x + 1 + jfuelItems xs

def jfuelMembers : List (String × Json) → Nat
  | [] => 0
  | m :: ms => jfuel m.2 + 1 + jfuelMembers ms

end

/-- JSON insignificant whitespace. -/
def isWsChar (c : Char) : Bool :=
  c = ' ' || c = '\n' || c = '\t' || c = '\r'

def skipWs : List Char → List Char
  | [] => []
  | c :: cs => if isWsChar c then skipWs cs else c :: cs

/-- Hex digit value, upper or lower case (as accepted by JSON.parse in
<backslash>uXXXX escapes). -/
def hexVal? (c : Char) : Option Nat :=
  if 48 ≤ c.toNat ∧ c.toNat ≤ 57 then some (c.toNat - 48)
  else if 97 ≤ c.toNat ∧ c.toNat ≤ 102 then some (c.toNat - 87)
  else if 65 ≤ c.toNat ∧ c.toNat ≤ 70 then some (c.toNat - 55)
  else none

/-- Prefix the first component of a successful parse result. -/
def consFirst (c : Char) :
    Except String (List Char × List Char) → Except String (List Char × List Char)
  | .ok (l, r) => .ok (c :: l, r)
  | .error msg => .error msg

/-- Value of four hex digits, if all four are valid. -/
def hex4 (a b c d : Char) : Option Nat :=
  match hexVal? a, hexVal? b, hexVal? c, hexVal? d with
  | some va, some vb, some vc, some vd =>
    some (4096 * va + 256 * vb + 16 * vc + vd)
  | _, _, _, _ => none

/-- Body of a JSON string literal after the opening quote: returns the decoded
characters and the remainder after the closing quote.  Unescaped control
characters are a syntax error, as in JSON.parse.  (A <backslash>uXXXX escape
denoting a lone surrogate is outside this embedding, since Lean characters are
scalar values; the printer never emits one.) -/
def parseStrBody : List Char → Except String (List Char × List Char)
  | [] => .error "Unterminated string in JSON"
  | c :: rest =>
    if c = '"' then .ok ([], rest)
    else if c = '\\' then
      match rest with
      | [] => .error "Unterminated string in JSON"
      | e :: rest2 =>
        if e = '"' then consFirst '"' (parseStrBody rest2)
        else if e = '\\' then consFirst '\\' (parseStrBody rest2)
        else if e = '/' then consFirst '/' (parseStrBody rest2)
        else if e = 'b' then consFirst '\x08' (parseStrBody rest2)
        else if e = 't' then consFirst '\x09' (parseStrBody rest2)
        else if e = 'n' then consFirst '\x0a' (parseStrBody rest2)
        else if e = 'f' then consFirst '\x0c' (parseStrBody rest2)
        else if e = 'r' then consFirst '\x0d' (parseStrBody rest2)
        else if e = 'u' then
          match rest2 with
          | a :: b :: c2 :: d :: rest3 =>
            match hex4 a b c2 d with
            | some code => consFirst (Char.ofNat code) (parseStrBody rest3)
            | none => .error "Bad unicode escape in JSON string"
          | _ => .error "Bad unicode escape in JSON string"
        else .error "Bad escape in JSON string"
    else if c.toNat < 32 then .error "Bad control character in JSON string"
    else consFirst c (parseStrBody rest)

def digitsVal (ds : List Char) : Nat :=
  ds.foldl (fun a c => 10 * a + (c.toNat - 48)) 0

/-- Longest digit prefix as a number.  (JSON.parse additionally rejects
leading zeros and accepts fraction/exponent parts; neither occurs in any
serialized output of the store, and fractional numbers are outside this
integer-valued embedding.) -/
def parseNat? (cs : List Char) : Option (Nat × List Char) :=
  let ds := cs.takeWhile Char.isDigit
  if ds.isEmpty then none
  else some (digitsVal ds, cs.drop ds.length)

mutual

/-- Recursive-descent JSON parser: one value, returning the remainder.
The fuel argument only bounds nesting of the recursion; `parseJson` below
supplies an amount that is ample for its input length. -/
def parseVal : Nat → List Char → Except String (Json × List Char)
  | 0, _ => .error "JSON value too deeply nested"
  | f + 1, cs =>
    match skipWs cs with
    | [] => .error "Unexpected end of JSON input"
    | c :: rest =>
      if c = 'n' then
        match rest with
        | 'u' :: 'l' :: 'l' :: r => .ok (.null, r)
        | _ => .error "Unexpected token"
      else if c = 't' then
        match rest with
        | 'r' :: 'u' :: 'e' :: r => .ok (.bool true, r)
        | _ => .error "Unexpected token"
      else if c = 'f' then
        match rest with
        | 'a' :: 'l' :: 's' :: 'e' :: r => .ok (.bool false, r)
        | _ => .error "Unexpected token"
      else if c = '"' then
        match parseStrBody rest with
        | .ok (l, r) => .ok (.str (String.mk l), r)
        | .error msg => .error msg
      else if c = '[' then
        match skipWs rest with
        | ']' :: r => .ok (.arr [], r)
        | r1 =>
          match parseItems f r1 with
          | .ok (vs, r) => .ok (.arr vs, r)
          | .error msg => .error msg
      else if c = '{' then
        match skipWs rest with
        | '}' :: r => .ok (.obj [], r)
        | r1 =>
          match parseMembers f r1 with
          | .ok (ms, r) => .ok (.obj ms, r)
          | .error msg => .error msg
      else if c = '-' then
        match parseNat? rest with
        | some (n, r) => .ok (.num (-(n : Int)), r)
        | none => .error "Unexpected token"
      else if c.isDigit then
        match parseNat? (c :: rest) with
        | some (n, r) => .ok (.num (n : Int), r)
        | none => .error "Unexpected token"
      else .error "Unexpected token"

def parseItems : Nat → List Char → Except String (List Json × List Char)
  | 0, _ => .error "JSON value too deeply nested"
  | f + 1, cs =>
    match parseVal f cs with
    | .error msg => .error msg
    | .ok (v, r) =>
      match skipWs r with
      | ',' :: r2 =>
        (match parseItems f r2 with
         | .ok (vs, r3) => .ok (v :: vs, r3)
         | .error msg => .error msg)
      | ']' :: r2 => .ok ([v], r2)
      | _ => .error "Expected comma or closing bracket in JSON array"

def parseMembers : Nat → List Char → Except String (List (String × Json) × List Char)
  | 0, _ => .error "JSON value too deeply nested"
  | f + 1, cs =>
    match skipWs cs with
    | '"' :: r =>
      (match parseStrBody r with
       | .error msg => .error msg
       | .ok (kdata, r1) =>
         match skipWs r1 with
         | ':' :: r2 =>
           (match parseVal f r2 with
            | .error msg => .error msg
            | .ok (v, r3) =>
              match skipWs r3 with
              | ',' :: r4 =>
                (match parseMembers f r4 with
                 | .ok (ms, r5) => .ok ((String.mk kdata, v) :: ms, r5)
                 | .error msg => .error msg)
              | '}' :: r4 => .ok ([(String.mk kdata, v)], r4)
              | _ => .error "Expected comma or closing brace in JSON object")
         | _ => .error "Expected colon in JSON object")
    | _ => .error "Expected string key in JSON object"

end

/-- `JSON.parse`: parse one value and require only whitespace after it. -/
def parseJson (s : String) : Except String Json :=
  match parseVal (2 * s.length + 2) s.data with
  | .error msg => .error msg
  | .ok (v, rest) =>
    match skipWs rest with
    | [] => .ok v
    | _ => .error "Unexpected non-whitespace character after JSON data"

/- ------------------------------------------------------------------ -/
/- Encoding the state to JSON and decoding parsed JSON back            -/
/- ------------------------------------------------------------------ -/

/-- An object member that is present only when the value is: JS object
properties holding `undefined` are skipped by JSON.stringify. -/
def optMember (k : String) : Option Json → List (String × Json)
  | none => []
  | some v => [(k, v)]

def optStrMember (k : String) (o : Option String) : List (String × Json) :=
  optMember k (o.map Json.str)

def optNumMember (k : String) (o : Option Int) : List (String × Json) :=
  optMember k (o.map Json.num)

def jsonOfCustomer (c : Customer) : Json :=
  .obj ([("id", .str c.id), ("name", .str c.name)] ++
    (optStrMember "phone" c.phone ++ optStrMember "email" c.email))

def jsonOfTechnician (t : Technician) : Json :=
  .obj [("id", .str t.id), ("name", .str t.name)]

def jsonOfDevice (d : Device) : Json :=
  .obj ([("id", .str d.id), ("type", .str d.type)] ++
    (optStrMember "brand" d.brand ++
      (optStrMember "model" d.model ++ optStrMember "serial" d.serial)))

def jsonOfTicket (t : Ticket) : Json :=
  .obj ([("id", .str t.id), ("createdAt", .str t.createdAt),
    ("updatedAt", .str t.updatedAt), ("customerId", .str t.customerId),
    ("deviceId", .str t.deviceId),
    ("problemDescription", .str t.problemDescription),
    ("status", .str (statusString t.status))] ++
    (optStrMember "technicianId" t.technicianId ++
      (optNumMember "estimatedCost" t.estimatedCost ++
        optStrMember "notes" t.notes)))

/-- The object `{customers, technicians, devices, tickets}` serialized by
`exportAll` and by every persist call. -/
def jsonOfState (s : State) : Json :=
  .obj [("customers", .arr (s.customers.map jsonOfCustomer)),
    ("technicians", .arr (s.technicians.map jsonOfTechnician)),
    ("devices", .arr (s.devices.map jsonOfDevice)),
    ("tickets", .arr (s.tickets.map jsonOfTicket))]

/-- A four-collection-shaped object with any subset of the keys present —
the input family for claim C5. -/
def jsonOfPatch (oc : Option (List Customer)) (ot : Option (List Technician))
    (od : Option (List Device)) (otk : Option (List Ticket)) : Json :=
  .obj (optMember "customers" (oc.map fun l => .arr (l.map jsonOfCustomer)) ++
    (optMember "technicians" (ot.map fun l => .arr (l.map jsonOfTechnician)) ++
      (optMember "devices" (od.map fun l => .arr (l.map jsonOfDevice)) ++
        optMember "tickets" (otk.map fun l => .arr (l.map jsonOfTicket)))))

/-- `exportAll` (page.tsx lines 170-173):
`JSON.stringify({customers, technicians, devices, tickets}, null, 2)`. -/
def exportAll (s : State) : String := String.mk (printJ 0 (jsonOfState s))

/-- Property lookup on a JS object literal; with duplicate keys the last
occurrence wins, as in JavaScript. -/
def lookupLast (k : String) : List (String × Json) → Option Json
  | [] => none
  | m :: ms =>
    match lookupLast k ms with
    | some v => some v
    | none => if m.1 = k then some m.2 else none

/-- `parsed.k` for a parsed (hence never `undefined`) JSON value, when
`parsed` is not `null` (reading a property of `null` throws): objects look the
key up, every other value yields `undefined`, modelled as `none`. -/
def memberOf (j : Json) (k : String) : Option Json :=
  match j with
  | .obj ms => lookupLast k ms
  | _ => none

def asString : Json → Option String
  | .str s => some s
  | _ => none

def asInt : Json → Option Int
  | .num n => some n
  | _ => none

/-- Read a parsed JSON value back into the `Customer` interface.  The source
stores whatever `JSON.parse` produced without any validation; this typed
embedding decodes each element into the entity interfaces (values not of that
shape are unrepresentable in the typed state and are dropped — no claim
exercises them, and everything the store itself serializes decodes exactly). -/
def decodeCustomer (j : Json) : Option Customer :=
  match j with
  | .obj ms =>
    match (lookupLast "id" ms).bind asString,
        (lookupLast "name" ms).bind asString with
    | some i, some n =>
      some { id := i, name := n,
             phone := (lookupLast "phone" ms).bind asString,
             email := (lookupLast "email" ms).bind asString }
    | _, _ => none
  | _ => none

def decodeTechnician (j : Json) : Option Technician :=
  match j with
  | .obj ms =>
    match (lookupLast "id" ms).bind asString,
        (lookupLast "name" ms).bind asString with
    | some i, some n => some { id := i, name := n }
    | _, _ => none
  | _ => none

def decodeDevice (j : Json) : Option Device :=
  match j with
  | .obj ms =>
    match (lookupLast "id" ms).bind asString,
        (lookupLast "type" ms).bind asString with
    | some i, some ty =>
      some { id := i, type := ty,
             brand := (lookupLast "brand" ms).bind asString,
             model := (lookupLast "model" ms).bind asString,
             serial := (lookupLast "serial" ms).bind asString }
    | _, _ => none
  | _ => none

def decodeTicket (j : Json) : Option Ticket :=
  match j with
  | .obj ms =>
    match (lookupLast "id" ms).bind asString,
        (lookupLast "createdAt" ms).bind asString,
        (lookupLast "updatedAt" ms).bind asString,
        (lookupLast "customerId" ms).bind asString,
        (lookupLast "deviceId" ms).bind asString,
        (lookupLast "problemDescription" ms).bind asString,
        ((lookupLast "status" ms).bind asString).bind statusOfString with
    | some i, some ca, some ua, some ci, some di, some pd, some st =>
      some { id := i, createdAt := ca, updatedAt := ua, customerId := ci,
             deviceId := di, problemDescription := pd, status := st,
             technicianId := (lookupLast "technicianId" ms).bind asString,
             estimatedCost := (lookupLast "estimatedCost" ms).bind asInt,
             notes := (lookupLast "notes" ms).bind asString }
    | _, _, _, _, _, _, _ => none
  | _ => none

def decodeList {α : Type} (dec : Json → Option α) : Json → List α
  | .arr xs => xs.filterMap dec
  | _ => []

/-- `parsed.k ?? []` followed by the typed reading of the collection. -/
def collectionOf {α : Type} (dec : Json → Option α) : Option Json → List α
  | none => []
  | some j => decodeList dec j

/-- `importAll` (page.tsx lines 153-169).  `JSON.parse` failure is caught and
returned; a successful parse of `null` throws a TypeError at the first
property access `parsed.customers` (also caught and returned, state untouched);
otherwise the four collections are replaced wholesale, with `?? []` defaulting
each absent key to the empty collection.  The returned pair models
(returned error string or null, state after the call). -/
def importedState (parsed : Json) : State :=
  { customers := collectionOf decodeCustomer (memberOf parsed "customers"),
    technicians := collectionOf decodeTechnician (memberOf parsed "technicians"),
    devices := collectionOf decodeDevice (memberOf parsed "devices"),
    tickets := collectionOf decodeTicket (memberOf parsed "tickets") }

def importAll (txt : String) (s : State) : Option String × State :=
  match parseJson txt with
  | .error msg => (some msg, s)
  | .ok parsed =>
    match parsed with
    | .null => (some "Cannot read properties of null (reading customers)", s)
    | _ => (none, importedState parsed)

/-- Lists of insignificant whitespace. -/
def AllWs (l : List Char) : Prop := ∀ c ∈ l, isWsChar c = true

/-- A remainder that does not start with a digit, so that a number literal
printed before it keeps its exact extent when re-parsed. -/
def NotDigitHead : List Char → Prop
  | [] => True
  | c :: _ => c.isDigit = false

/-- Scalar JSON values (the member values of every serialized entity). -/
def ScalarV (v : Json) : Prop := (∃ s, v = .str s) ∨ (∃ n, v = .num n)

/-- The printed form of `v` parses back to exactly `v`, from under any leading
whitespace, leaving any non-digit-headed remainder untouched, for any fuel
margin above `jfuel v`. -/
def ParsesAtP (v : Json) : Prop :=
  ∀ (f ind : Nat) (pre rest : List Char), AllWs pre → NotDigitHead rest →
    parseVal (f + jfuel v) (pre ++ (printJ ind v ++ rest)) = .ok (v, rest)

/-- A concrete ticket used by the closed witness/counterexample statements. -/
def demoTicket : Ticket :=
  { id := "a", createdAt := "2024-06-01T00:00:00.000Z",
    updatedAt := "2024-06-01T00:00:00.000Z", customerId := "c1",
    deviceId := "d1", problemDescription := "p", status := Status.new,
    technicianId := none, estimatedCost := none, notes := none }

/-- A concrete one-ticket store state for witness statements. -/
def demoState : State :=
  { customers := [], technicians := [], devices := [], tickets := [demoTicket] }

/- ------------------------------------------------------------------ -/
/- Theorems                                                            -/
/- ------------------------------------------------------------------ -/

theorem map_eq_self_of {α : Type} {f : α → α} :
    ∀ l : List α, (∀ a ∈ l, f a = a) → l.map f = l
  | [], _ => rfl
  | a :: l, h => by
    rw [List.map_cons, h a (List.mem_cons_self a l),
      map_eq_self_of l fun x hx => h x (List.mem_cons_of_mem a hx)]

theorem find?_map_of_id_preserving (tid : String) (g : Ticket → Ticket)
    (hg : ∀ tk, (g tk).id = tk.id) :
    ∀ l : List Ticket,
      (l.map g).find? (fun tk => tk.id == tid) =
        ((l.find? fun tk => tk.id == tid).map g)
  | [] => rfl
  | a :: l => by
    by_cases h : a.id = tid
    · simp [List.find?, hg a, h]
    · simp only [List.map_cons, List.find?]
      rw [show ((g a).id == tid) = false by simp [hg a, h],
        show (a.id == tid) = false by simp [h]]
      exact find?_map_of_id_preserving tid g hg l

theorem find?_filter_of_imp {p q : Ticket → Bool}
    (hpq : ∀ a, q a = true → p a = true) :
    ∀ l : List Ticket, (l.filter p).find? q = l.find? q
  | [] => rfl
  | a :: l => by
    by_cases hq : q a = true
    · simp [List.filter, List.find?, hpq a hq, hq]
    · by_cases hp : p a = true
      · simp only [List.filter, hp, List.find?]
        rw [show q a = false by simpa using hq]
        exact find?_filter_of_imp hpq l
      · simp only [List.filter, Bool.not_eq_true] at hp ⊢
        rw [hp]
        simp only [List.find?]
        rw [show q a = false by simpa using hq]
        exact find?_filter_of_imp hpq l

theorem findTicket_applyOp_createdAt (tid : String) (op : Op) (s : State)
    (t : Ticket) (hop : GoodOp tid op) (hfind : findTicket tid s = some t) :
    findTicket tid (applyOp op s) = none ∨
      ∃ t', findTicket tid (applyOp op s) = some t' ∧ t'.createdAt = t.createdAt := by
  cases op with
  | addCustomer newId c => right; exact ⟨t, hfind, rfl⟩
  | addTechnician newId tc => right; exact ⟨t, hfind, rfl⟩
  | addDevice newId d => right; exact ⟨t, hfind, rfl⟩
  | addTicket newId now tf =>
    right
    refine ⟨t, ?_, rfl⟩
    simp only [GoodOp] at hop
    simp only [findTicket, applyOp, addTicket] at *
    rw [List.find?_cons_of_neg _ (by simpa using hop)]
    exact hfind
  | updateTicket now id u =>
    right
    obtain ⟨hid, hcreated⟩ := hop
    have hpres : ∀ tk : Ticket,
        (if tk.id = id then mergeTicket now tk u else tk).id = tk.id := by
      intro tk
      by_cases h : tk.id = id <;> simp [h, mergeTicket, hid]
    have := find?_map_of_id_preserving tid
      (fun tk => if tk.id = id then mergeTicket now tk u else tk) hpres s.tickets
    refine ⟨if t.id = id then mergeTicket now t u else t, ?_, ?_⟩
    · simp only [findTicket, applyOp, updateTicket] at *
      rw [this, hfind]
      rfl
    · by_cases h : t.id = id <;> simp [h, mergeTicket, hcreated]
  | removeTicket rid =>
    by_cases hr : rid = tid
    · left
      subst hr
      simp only [findTicket, applyOp, removeTicket]
      rw [List.find?_eq_none]
      intro a ha
      have := (List.mem_filter.mp ha).2
      simpa using this
    · right
      refine ⟨t, ?_, rfl⟩
      simp only [findTicket, applyOp, removeTicket]
      rw [find?_filter_of_imp]
      · exact hfind
      · intro a ha
        have : a.id = tid := by simpa using ha
        simp [this, Ne.symm hr]

theorem findTicket_runOps_createdAt (tid : String) :
    ∀ (ops : List Op) (s : State) (t : Ticket),
      (∀ op ∈ ops, GoodOp tid op) → findTicket tid s = some t →
      findTicket tid (runOps ops s) = none ∨
        ∃ t', findTicket tid (runOps ops s) = some t' ∧ t'.createdAt = t.createdAt
  | [], s, t, _, hfind => Or.inr ⟨t, hfind, rfl⟩
  | op :: ops, s, t, hops, hfind => by
    have hstep := findTicket_applyOp_createdAt tid op s t
      (hops op (List.mem_cons_self op ops)) hfind
    have hops' : ∀ o ∈ ops, GoodOp tid o := fun o ho =>
      hops o (List.mem_cons_of_mem op ho)
    rcases hstep with hnone | ⟨t', hfind', hcr⟩
    · -- once the ticket is gone it may stay gone or a later op may not re-create
      -- it with the tracked id (ticket creation inside `ops` uses fresh ids),
      -- so we show the invariant is re-established from the `none` case.
      have : ∀ (ops' : List Op) (s' : State), (∀ o ∈ ops', GoodOp tid o) →
          findTicket tid s' = none → findTicket tid (runOps ops' s') = none := by
        intro ops'
        induction ops' with
        | nil => intro s' _ h; exact h
        | cons o os ih =>
          intro s' hgood hnone'
          have hgo := hgood o (List.mem_cons_self o os)
          have hos : ∀ x ∈ os, GoodOp tid x := fun x hx =>
            hgood x (List.mem_cons_of_mem o hx)
          refine ih (applyOp o s') hos ?_
          cases o with
          | addCustomer newId c => exact hnone'
          | addTechnician newId tc => exact hnone'
          | addDevice newId d => exact hnone'
          | addTicket newId now tf =>
            simp only [GoodOp] at hgo
            simp only [findTicket, applyOp, addTicket] at *
            rw [List.find?_cons_of_neg _ (by simpa using hgo)]
            exact hnone'
          | updateTicket now id u =>
            obtain ⟨hid, _⟩ := hgo
            have hpres : ∀ tk : Ticket,
                (if tk.id = id then mergeTicket now tk u else tk).id = tk.id := by
              intro tk
              by_cases h : tk.id = id <;> simp [h, mergeTicket, hid]
            simp only [findTicket, applyOp, updateTicket]
            rw [find?_map_of_id_preserving tid _ hpres s'.tickets]
            simp only [findTicket] at hnone'
            rw [hnone']
            rfl
          | removeTicket rid =>
            simp only [findTicket, applyOp, removeTicket]
            rw [List.find?_eq_none]
            intro a ha
            have ha' := (List.mem_filter.mp ha).1
            simp only [findTicket] at hnone'
            have := List.find?_eq_none.mp hnone' a ha'
            exact this
      exact Or.inl (this ops (applyOp op s) hops' hnone)
    · have := findTicket_runOps_createdAt tid ops (applyOp op s) t' hops' hfind'
      rcases this with h | ⟨t'', h1, h2⟩
      · exact Or.inl h
      · exact Or.inr ⟨t'', h1, h2.trans hcr⟩

/-- C6: `updateTicket` on an id that no stored ticket carries is a no-op. -/
theorem c6_updateTicket_missing_id_noop (now id : String) (u : TicketPatch)
    (s : State) (h : ∀ tk ∈ s.tickets, tk.id ≠ id) :
    updateTicket now id u s = s := by
  have : s.tickets.map
      (fun tk => if tk.id = id then mergeTicket now tk u else tk) = s.tickets :=
    map_eq_self_of _ fun tk htk => if_neg (h tk htk)
  simp only [updateTicket, this]

theorem c6_updateTicket_missing_id_noop_witness :
    updateTicket "2024-06-02T00:00:00.000Z" "b" { status := some Status.ready }
      demoState = demoState :=
  c6_updateTicket_missing_id_noop _ _ _ _ (by decide)

/-- C7: `removeTicket` removes exactly the tickets whose id matches, and doing
it twice is the same as doing it once. -/
theorem c7_removeTicket_exact_and_idempotent (id : String) (s : State) :
    (∀ tk, tk ∈ (removeTicket id s).tickets ↔ tk ∈ s.tickets ∧ tk.id ≠ id) ∧
      removeTicket id (removeTicket id s) = removeTicket id s := by
  constructor
  · intro tk
    simp [removeTicket, List.mem_filter]
  · simp only [removeTicket, List.filter_filter]
    congr 1
    apply List.filter_congr
    intro a _
    by_cases h : a.id = id <;> simp [h]

/-- C8: each `addX` prepends exactly one new item carrying the fresh id and
leaves the other three collections unchanged; `addTicket` sets
`createdAt = updatedAt = now`. -/
theorem c8_add_operations (s : State) (newId now : String) (cf : CustomerFields)
    (tf : TechnicianFields) (df : DeviceFields) (kf : TicketFields) :
    ((addCustomer newId cf s).customers.length = s.customers.length + 1 ∧
      (addCustomer newId cf s).customers =
        { id := newId, name := cf.name, phone := cf.phone, email := cf.email }
          :: s.customers ∧
      (addCustomer newId cf s).technicians = s.technicians ∧
      (addCustomer newId cf s).devices = s.devices ∧
      (addCustomer newId cf s).tickets = s.tickets) ∧
    ((addTechnician newId tf s).technicians.length = s.technicians.length + 1 ∧
      (addTechnician newId tf s).technicians =
        { id := newId, name := tf.name } :: s.technicians ∧
      (addTechnician newId tf s).customers = s.customers ∧
      (addTechnician newId tf s).devices = s.devices ∧
      (addTechnician newId tf s).tickets = s.tickets) ∧
    ((addDevice newId df s).devices.length = s.devices.length + 1 ∧
      (addDevice newId df s).devices =
        { id := newId, type := df.type, brand := df.brand, model := df.model,
          serial := df.serial } :: s.devices ∧
      (addDevice newId df s).customers = s.customers ∧
      (addDevice newId df s).technicians = s.technicians ∧
      (addDevice newId df s).tickets = s.tickets) ∧
    ((addTicket newId now kf s).tickets.length = s.tickets.length + 1 ∧
      (addTicket newId now kf s).tickets =
        { id := newId, createdAt := now, updatedAt := now,
          customerId := kf.customerId, deviceId := kf.deviceId,
          problemDescription := kf.problemDescription, status := kf.status,
          technicianId := kf.technicianId, estimatedCost := kf.estimatedCost,
          notes := kf.notes } :: s.tickets ∧
      (addTicket newId now kf s).customers = s.customers ∧
      (addTicket newId now kf s).technicians = s.technicians ∧
      (addTicket newId now kf s).devices = s.devices ∧
      (∀ tk, (addTicket newId now kf s).tickets.head? = some tk →
        tk.createdAt = tk.updatedAt)) := by
  refine ⟨⟨rfl, rfl, rfl, rfl, rfl⟩, ⟨rfl, rfl, rfl, rfl, rfl⟩,
    ⟨rfl, rfl, rfl, rfl, rfl⟩, ⟨rfl, rfl, rfl, rfl, rfl, ?_⟩⟩
  intro tk htk
  simp only [addTicket, List.head?] at htk
  cases htk
  rfl

/-- C2: patching only the status of the stored ticket with a given (unique) id
rewrites exactly that ticket: the status becomes the new one, `updatedAt`
becomes `now` (strictly later than before whenever the clock advanced), and
every other field, every other ticket and the other three collections are
untouched. -/
theorem c2_updateTicket_status_frame (s : State) (pre post : List Ticket)
    (t : Ticket) (now : String) (st : Status)
    (hsplit : s.tickets = pre ++ t :: post)
    (huniq : ∀ u, u ∈ pre ∨ u ∈ post → u.id ≠ t.id)
    (hclock : t.updatedAt < now) :
    (updateTicket now t.id { status := some st } s).tickets =
        pre ++ mergeTicket now t { status := some st } :: post ∧
      (updateTicket now t.id { status := some st } s).customers = s.customers ∧
      (updateTicket now t.id { status := some st } s).technicians = s.technicians ∧
      (updateTicket now t.id { status := some st } s).devices = s.devices ∧
      (mergeTicket now t { status := some st }).status = st ∧
      (mergeTicket now t { status := some st }).updatedAt = now ∧
      t.updatedAt < (mergeTicket now t { status := some st }).updatedAt ∧
      (mergeTicket now t { status := some st }).id = t.id ∧
      (mergeTicket now t { status := some st }).createdAt = t.createdAt ∧
      (mergeTicket now t { status := some st }).customerId = t.customerId ∧
      (mergeTicket now t { status := some st }).deviceId = t.deviceId ∧
      (mergeTicket now t { status := some st }).problemDescription =
        t.problemDescription ∧
      (mergeTicket now t { status := some st }).technicianId = t.technicianId ∧
      (mergeTicket now t { status := some st }).estimatedCost = t.estimatedCost ∧
      (mergeTicket now t { status := some st }).notes = t.notes := by
  refine ⟨?_, rfl, rfl, rfl, rfl, rfl, hclock, rfl, rfl, rfl, rfl, rfl, rfl, rfl, rfl⟩
  simp only [updateTicket, hsplit, List.map_append, List.map_cons, if_pos rfl]
  congr 1
  · exact map_eq_self_of _ fun tk htk => if_neg (huniq tk (Or.inl htk))
  · congr 1
    exact map_eq_self_of _ fun tk htk => if_neg (huniq tk (Or.inr htk))

theorem c2_updateTicket_status_frame_witness :
    demoTicket.updatedAt < "2024-06-02T00:00:00.000Z" ∧
    (updateTicket "2024-06-02T00:00:00.000Z" "a" { status := some Status.ready }
      demoState).tickets =
      [] ++ mergeTicket "2024-06-02T00:00:00.000Z" demoTicket
        { status := some Status.ready } :: [] := by
  have hlt : demoTicket.updatedAt < "2024-06-02T00:00:00.000Z" := by
    show ("2024-06-01T00:00:00.000Z" : String) < "2024-06-02T00:00:00.000Z"
    rw [String.lt_iff_toList_lt]
    decide
  refine ⟨hlt, ?_⟩
  have h := (c2_updateTicket_status_frame demoState [] [] demoTicket
    "2024-06-02T00:00:00.000Z" Status.ready rfl
    (by intro u hu; rcases hu with h | h <;> simp at h) hlt).1
  simpa [demoTicket] using h

/-- C3 fails as stated: an `updateTicket` whose partial-fields argument carries
a `createdAt` value overwrites the `createdAt` of the stored ticket (the JS spread
`{ ...tk, ...updates, updatedAt: now }` copies every present property of
`updates`). -/
theorem c3_counterexample :
    (updateTicket "2024-06-02T00:00:00.000Z" "a"
        { createdAt := some "1999-01-01T00:00:00.000Z" }
        demoState).tickets.map Ticket.createdAt = ["1999-01-01T00:00:00.000Z"] ∧
      demoState.tickets.map Ticket.createdAt = ["2024-06-01T00:00:00.000Z"] ∧
      ("1999-01-01T00:00:00.000Z" : String) ≠ "2024-06-01T00:00:00.000Z" := by
  refine ⟨?_, rfl, by decide⟩
  rfl

/-- C3, amended: as long as ticket patches leave `id` and `createdAt` absent
(which every call site does), no sequence of add/update/remove operations ever
changes the `createdAt` of the ticket stored under a tracked id, and
`updateTicket` always rewrites the matched ticket with `updatedAt = now`. -/
theorem c3_createdAt_immutable_updatedAt_refreshed :
    (∀ (tid : String) (ops : List Op) (s : State) (t : Ticket),
      (∀ op ∈ ops, GoodOp tid op) → findTicket tid s = some t →
      findTicket tid (runOps ops s) = none ∨
        ∃ t', findTicket tid (runOps ops s) = some t' ∧
          t'.createdAt = t.createdAt) ∧
    (∀ (now tid : String) (u : TicketPatch) (s : State) (t : Ticket),
      u.id = none → findTicket tid s = some t →
      findTicket tid (updateTicket now tid u s) = some (mergeTicket now t u) ∧
        (mergeTicket now t u).updatedAt = now) := by
  constructor
  · intro tid ops s t hops hfind
    exact findTicket_runOps_createdAt tid ops s t hops hfind
  · intro now tid u s t hid hfind
    have hpres : ∀ tk : Ticket,
        (if tk.id = tid then mergeTicket now tk u else tk).id = tk.id := by
      intro tk
      by_cases h : tk.id = tid <;> simp [h, mergeTicket, hid]
    have hmap := find?_map_of_id_preserving tid
      (fun tk => if tk.id = tid then mergeTicket now tk u else tk) hpres s.tickets
    have htid : t.id = tid := by
      have := List.find?_some (by simpa [findTicket] using hfind)
      simpa using this
    constructor
    · simp only [findTicket, updateTicket] at *
      rw [hmap, hfind]
      simp [htid]
    · rfl

theorem c3_createdAt_immutable_witness :
    (findTicket "a" (runOps
        [Op.updateTicket "2024-06-02T00:00:00.000Z" "a" { status := some Status.ready },
         Op.removeTicket "zz"] demoState)).map Ticket.createdAt ≠
      some "1999-01-01T00:00:00.000Z" := by
  have h := c3_createdAt_immutable_updatedAt_refreshed.1 "a"
    [Op.updateTicket "2024-06-02T00:00:00.000Z" "a" { status := some Status.ready },
     Op.removeTicket "zz"] demoState demoTicket
    (by intro op hop; fin_cases hop <;> simp [GoodOp]) rfl
  rcases h with hnone | ⟨t', hsome, hcr⟩
  · rw [hnone]
    exact fun hc => Option.noConfusion hc
  · rw [hsome]
    intro hc
    have ht' : t'.createdAt = "1999-01-01T00:00:00.000Z" := by
      simpa using hc
    rw [hcr] at ht'
    exact absurd ht' (by decide)

/-- C9: the filtered ticket list is exactly the subsequence of the stored
tickets satisfying the declarative status/search predicate. -/
theorem c9_filteredTickets_characterization (statusFilter : Option Status)
    (search : String) (s : State) :
    filteredTickets statusFilter search s =
        s.tickets.filter (fun t => decide (MatchesSpec statusFilter search s t)) ∧
      (filteredTickets statusFilter search s).Sublist s.tickets := by
  constructor
  · apply List.filter_congr
    intro t _
    cases statusFilter with
    | none =>
      by_cases hq : search = "" <;>
        simp [MatchesSpec, hq]
    | some f =>
      by_cases hst : t.status = f
      · by_cases hq : search = "" <;>
          simp [MatchesSpec, hst, hq]
      · simp [MatchesSpec, hst, Ne.symm hst]
  · exact List.filter_sublist _

/- ------------------------------------------------------------------ -/
/- Round-trip infrastructure: whitespace, digits, guard characters     -/
/- ------------------------------------------------------------------ -/

theorem skipWs_cons_not (c : Char) (cs : List Char) (h : isWsChar c = false) :
    skipWs (c :: cs) = c :: cs := by
  simp [skipWs, h]

theorem skipWs_cons_ws (c : Char) (cs : List Char) (h : isWsChar c = true) :
    skipWs (c :: cs) = skipWs cs := by
  simp [skipWs, h]

theorem skipWs_append_ws : ∀ {l : List Char} (cs : List Char), AllWs l →
    skipWs (l ++ cs) = skipWs cs
  | [], cs, _ => rfl
  | c :: l, cs, h => by
    rw [List.cons_append, skipWs_cons_ws _ _ (h c (List.mem_cons_self c l))]
    exact skipWs_append_ws cs fun x hx => h x (List.mem_cons_of_mem c hx)

theorem AllWs_sp (n : Nat) : AllWs (sp n) := by
  intro c hc
  rw [sp, List.mem_replicate] at hc
  rw [hc.2]
  decide

theorem AllWs_nil : AllWs [] := by
  intro c hc
  cases hc

theorem skipWs_idem : ∀ cs : List Char, skipWs (skipWs cs) = skipWs cs
  | [] => rfl
  | c :: cs => by
    by_cases h : isWsChar c = true
    · rw [skipWs_cons_ws _ _ h]
      exact skipWs_idem cs
    · rw [skipWs_cons_not _ _ (by simpa using h), skipWs_cons_not _ _ (by simpa using h)]

theorem parseVal_skipWs (f : Nat) (cs : List Char) :
    parseVal f (skipWs cs) = parseVal f cs := by
  cases f with
  | zero => rfl
  | succ f => simp only [parseVal, skipWs_idem]

theorem parseMembers_skipWs (f : Nat) (cs : List Char) :
    parseMembers f (skipWs cs) = parseMembers f cs := by
  cases f with
  | zero => rfl
  | succ f => simp only [parseMembers, skipWs_idem]

theorem parseItems_skipWs (f : Nat) (cs : List Char) :
    parseItems f (skipWs cs) = parseItems f cs := by
  cases f with
  | zero => rfl
  | succ f => simp only [parseItems, parseVal_skipWs]

theorem digitChar_spec (d : Nat) (h : d < 10) :
    (digitChar d).isDigit = true ∧ (digitChar d).toNat = 48 + d := by
  interval_cases d <;> exact ⟨by decide, by decide⟩

theorem natDigits_ne_nil (n : Nat) : natDigits n ≠ [] := by
  rw [natDigits]
  split
  · exact List.cons_ne_nil _ _
  · simp

theorem natDigits_all_digits (n : Nat) : ∀ c ∈ natDigits n, c.isDigit = true := by
  induction n using Nat.strong_induction_on with
  | _ n ih =>
    rw [natDigits]
    split
    · next h =>
      intro c hc
      rw [List.mem_singleton] at hc
      rw [hc]
      exact (digitChar_spec n h).1
    · next h =>
      intro c hc
      rw [List.mem_append] at hc
      rcases hc with hc | hc
      · exact ih (n / 10) (Nat.div_lt_self (by omega) (by omega)) c hc
      · rw [List.mem_singleton] at hc
        rw [hc]
        exact (digitChar_spec (n % 10) (Nat.mod_lt _ (by omega))).1

theorem foldl_natDigits (n : Nat) : ∀ a : Nat,
    (natDigits n).foldl (fun a c => 10 * a + (c.toNat - 48)) a =
      a * 10 ^ (natDigits n).length + n := by
  induction n using Nat.strong_induction_on with
  | _ n ih =>
    intro a
    rw [natDigits]
    split
    · next h =>
      simp only [List.foldl_cons, List.foldl_nil, List.length_singleton]
      rw [(digitChar_spec n h).2]
      omega
    · next h =>
      rw [List.foldl_append, List.length_append,
        ih (n / 10) (Nat.div_lt_self (by omega) (by omega)) a]
      simp only [List.foldl_cons, List.foldl_nil, List.length_singleton]
      rw [pow_succ]
      have hd : 10 * (n / 10) + n % 10 = n := Nat.div_add_mod n 10
      have he : (digitChar (n % 10)).toNat - 48 = n % 10 := by
        rw [(digitChar_spec (n % 10) (Nat.mod_lt _ (by omega))).2]
        omega
      rw [he]
      generalize (10 : Nat) ^ (natDigits (n / 10)).length = P
      have hm : a * (P * 10) = a * P * 10 := by ring
      rw [hm]
      omega

theorem digitsVal_natDigits (n : Nat) : digitsVal (natDigits n) = n := by
  have h := foldl_natDigits n 0
  rw [digitsVal, h]
  omega

theorem takeWhile_digits_append :
    ∀ (l r : List Char), (∀ c ∈ l, c.isDigit = true) → NotDigitHead r →
      (l ++ r).takeWhile Char.isDigit = l
  | [], [], _, _ => rfl
  | [], c :: r, _, hr => by
    have hc : c.isDigit = false := hr
    simp [List.takeWhile_cons, hc]
  | c :: l, r, hl, hr => by
    rw [List.cons_append, List.takeWhile_cons, if_pos (hl c (List.mem_cons_self c l)),
      takeWhile_digits_append l r (fun x hx => hl x (List.mem_cons_of_mem c hx)) hr]

theorem parseNat_natDigits (n : Nat) (r : List Char) (hr : NotDigitHead r) :
    parseNat? (natDigits n ++ r) = some (n, r) := by
  rw [parseNat?]
  simp only [takeWhile_digits_append (natDigits n) r (natDigits_all_digits n) hr]
  rw [if_neg (by simpa [List.isEmpty_iff] using natDigits_ne_nil n)]
  rw [digitsVal_natDigits, List.drop_left]

theorem digit_guards (c : Char) (h : c.isDigit = true) :
    c ≠ 'n' ∧ c ≠ 't' ∧ c ≠ 'f' ∧ c ≠ '"' ∧ c ≠ '[' ∧ c ≠ '{' ∧ c ≠ '-' ∧
      isWsChar c = false := by
  refine ⟨?_, ?_, ?_, ?_, ?_, ?_, ?_, ?_⟩
  · intro e; rw [e] at h; exact absurd h (by decide)
  · intro e; rw [e] at h; exact absurd h (by decide)
  · intro e; rw [e] at h; exact absurd h (by decide)
  · intro e; rw [e] at h; exact absurd h (by decide)
  · intro e; rw [e] at h; exact absurd h (by decide)
  · intro e; rw [e] at h; exact absurd h (by decide)
  · intro e; rw [e] at h; exact absurd h (by decide)
  · rw [isWsChar]
    simp only [Bool.or_eq_false_iff, decide_eq_false_iff_not]
    refine ⟨⟨⟨?_, ?_⟩, ?_⟩, ?_⟩ <;> (intro e; rw [e] at h; exact absurd h (by decide))

theorem hexVal_hexChar (v : Nat) (h : v < 16) : hexVal? (hexChar v) = some v := by
  interval_cases v <;> decide

theorem stringMk_data : ∀ s : String, String.mk s.data = s
  | ⟨_⟩ => rfl

theorem parseStrBody_escBody : ∀ (l r : List Char),
    parseStrBody (escBody l ++ ('"' :: r)) = .ok (l, r)
  | [], r => by
    simp only [escBody, List.nil_append]
    rw [parseStrBody.eq_def]
    simp
  | c :: l, r => by
    have IH := parseStrBody_escBody l r
    rw [escBody, List.append_assoc]
    by_cases h1 : c = '"'
    · subst h1
      rw [escChar, if_pos rfl, List.cons_append, List.cons_append,
        List.nil_append, parseStrBody.eq_def]
      simp [consFirst, IH]
    · by_cases h2 : c = '\\'
      · subst h2
        rw [escChar]
        rw [if_neg (by decide), if_pos rfl, List.cons_append, List.cons_append,
          List.nil_append, parseStrBody.eq_def]
        simp [consFirst, IH]
      · by_cases h3 : c = '\x08'
        · subst h3
          rw [escChar]
          rw [if_neg (by decide), if_neg (by decide), if_pos rfl,
            List.cons_append, List.cons_append, List.nil_append,
            parseStrBody.eq_def]
          simp [consFirst, IH]
        · by_cases h4 : c = '\x09'
          · subst h4
            rw [escChar]
            rw [if_neg (by decide), if_neg (by decide), if_neg (by decide),
              if_pos rfl, List.cons_append, List.cons_append, List.nil_append,
              parseStrBody.eq_def]
            simp [consFirst, IH]
          · by_cases h5 : c = '\x0a'
            · subst h5
              rw [escChar]
              rw [if_neg (by decide), if_neg (by decide), if_neg (by decide),
                if_neg (by decide), if_pos rfl, List.cons_append,
                List.cons_append, List.nil_append, parseStrBody.eq_def]
              simp [consFirst, IH]
            · by_cases h6 : c = '\x0c'
              · subst h6
                rw [escChar]
                rw [if_neg (by decide), if_neg (by decide), if_neg (by decide),
                  if_neg (by decide), if_neg (by decide), if_pos rfl,
                  List.cons_append, List.cons_append, List.nil_append,
                  parseStrBody.eq_def]
                simp [consFirst, IH]
              · by_cases h7 : c = '\x0d'
                · subst h7
                  rw [escChar]
                  rw [if_neg (by decide), if_neg (by decide), if_neg (by decide),
                    if_neg (by decide), if_neg (by decide), if_neg (by decide),
                    if_pos rfl, List.cons_append, List.cons_append,
                    List.nil_append, parseStrBody.eq_def]
                  simp [consFirst, IH]
                · by_cases h8 : c.toNat < 32
                  · have hq : hexVal? (hexChar (c.toNat / 16)) =
                        some (c.toNat / 16) := hexVal_hexChar _ (by omega)
                    have hm : hexVal? (hexChar (c.toNat % 16)) =
                        some (c.toNat % 16) := hexVal_hexChar _ (by omega)
                    have h0 : hexVal? '0' = some 0 := by decide
                    have hh : hex4 '0' '0' (hexChar (c.toNat / 16))
                        (hexChar (c.toNat % 16)) = some c.toNat := by
                      rw [hex4, h0, hq, hm]
                      simp only []
                      congr 1
                      omega
                    rw [escChar, if_neg h1, if_neg h2, if_neg h3, if_neg h4,
                      if_neg h5, if_neg h6, if_neg h7, if_pos h8]
                    rw [List.cons_append, List.cons_append, List.cons_append,
                      List.cons_append, List.cons_append, List.cons_append,
                      List.nil_append, parseStrBody.eq_def]
                    simp [hh, consFirst, Char.ofNat_toNat, IH]
                  · rw [escChar, if_neg h1, if_neg h2, if_neg h3, if_neg h4,
                      if_neg h5, if_neg h6, if_neg h7, if_neg h8,
                      List.cons_append, List.nil_append, parseStrBody.eq_def]
                    simp [h1, h2, h8, consFirst, IH]

theorem parseVal_print_scalar (v : Json) (hv : ScalarV v) : ParsesAtP v := by
  rcases hv with ⟨s, rfl⟩ | ⟨n, rfl⟩
  · intro f ind pre rest hpre hrest
    rw [show jfuel (Json.str s) = 1 from by simp [jfuel],
      show printJ ind (Json.str s) = escStr s from by simp [printJ, jsNull, jsTrue, jsFalse], escStr]
    have hl : pre ++ (('"' :: (escBody s.data ++ ['"'])) ++ rest) =
        pre ++ ('"' :: (escBody s.data ++ ('"' :: rest))) := by
      simp
    rw [hl]
    simp only [parseVal]
    rw [skipWs_append_ws _ hpre, skipWs_cons_not '"' _ (by decide)]
    simp [parseStrBody_escBody, stringMk_data]
  · intro f ind pre rest hpre hrest
    rw [show jfuel (Json.num n) = 1 from by simp [jfuel],
      show printJ ind (Json.num n) = printInt n from by simp [printJ, jsNull, jsTrue, jsFalse], printInt]
    by_cases hn : n < 0
    · rw [if_pos hn]
      simp only [parseVal, List.cons_append]
      rw [skipWs_append_ws _ hpre, skipWs_cons_not '-' _ (by decide)]
      have hneg : -|n| = n := by
        rw [abs_of_neg hn]
        ring
      simp [parseNat_natDigits _ _ hrest, hneg]
    · rw [if_neg hn]
      obtain ⟨c, ds, hnd⟩ : ∃ c ds, natDigits n.natAbs = c :: ds := by
        cases h : natDigits n.natAbs with
        | nil => exact absurd h (natDigits_ne_nil _)
        | cons c ds => exact ⟨c, ds, rfl⟩
      have hdig : c.isDigit = true :=
        natDigits_all_digits _ c (by rw [hnd]; exact List.mem_cons_self _ _)
      obtain ⟨g1, g2, g3, g4, g5, g6, g7, g8⟩ := digit_guards c hdig
      rw [hnd]
      simp only [parseVal, List.cons_append]
      rw [skipWs_append_ws _ hpre, skipWs_cons_not c _ g8]
      have hrecomb : c :: (ds ++ rest) = natDigits n.natAbs ++ rest := by
        rw [hnd, List.cons_append]
      have hpos : ((n.natAbs : Int)) = n := by omega
      simp [if_neg g1, if_neg g2, if_neg g3, if_neg g4, if_neg g5, if_neg g6,
        if_neg g7, hdig, hrecomb, parseNat_natDigits _ _ hrest, hpos]

theorem AllWs_append {a b : List Char} (ha : AllWs a) (hb : AllWs b) :
    AllWs (a ++ b) := by
  intro c hc
  rw [List.mem_append] at hc
  rcases hc with hc | hc
  · exact ha c hc
  · exact hb c hc

theorem parseMembers_print (ind i : Nat) (rest : List Char) :
    ∀ (ms : List (String × Json)) (m : String × Json), ParsesAtP m.2 →
      (∀ x ∈ ms, ParsesAtP x.2) → ∀ (f : Nat) (pre : List Char), AllWs pre →
      parseMembers (f + jfuelMembers (m :: ms))
          (pre ++ (printMembersJ ind m ms ++ ('\n' :: (sp i ++ ('}' :: rest))))) =
        .ok (m :: ms, rest) := by
  intro ms
  induction ms with
  | nil =>
    intro m hm _ f pre hpre
    rcases m with ⟨k, v⟩
    have hfuel : f + jfuelMembers [(k, v)] = (f + jfuel v) + 1 := by
      simp [jfuelMembers]
      omega
    rw [hfuel]
    have hv : parseVal (f + jfuel v)
        (' ' :: (printJ ind v ++ ('\n' :: (sp i ++ ('}' :: rest))))) =
        Except.ok (v, '\n' :: (sp i ++ ('}' :: rest))) := by
      have h0 := hm f ind [' '] ('\n' :: (sp i ++ ('}' :: rest)))
        (by intro c hc; simp at hc; subst hc; decide)
        (by simp [NotDigitHead])
      simpa using h0
    rw [printMembersJ]
    simp only [parseMembers]
    simp [skipWs_append_ws, hpre, AllWs_sp, skipWs, escStr, parseStrBody_escBody,
      hv, stringMk_data,
      (by decide : isWsChar '"' = false), (by decide : isWsChar ':' = false),
      (by decide : isWsChar ',' = false), (by decide : isWsChar '}' = false),
      (by decide : isWsChar '\n' = true)]
  | cons m2 ms2 ih =>
    intro m hm hms f pre hpre
    rcases m with ⟨k, v⟩
    have hm2 : ParsesAtP m2.2 := hms m2 (List.mem_cons_self _ _)
    have hms2 : ∀ x ∈ ms2, ParsesAtP x.2 := fun x hx =>
      hms x (List.mem_cons_of_mem _ hx)
    have hfuel : f + jfuelMembers ((k, v) :: m2 :: ms2) =
        (f + jfuelMembers (m2 :: ms2) + jfuel v) + 1 := by
      simp [jfuelMembers]
      omega
    rw [hfuel]
    have hv : parseVal (f + jfuelMembers (m2 :: ms2) + jfuel v)
        (' ' :: (printJ ind v ++ (',' :: ('\n' :: (printMembersJ ind m2 ms2 ++
          ('\n' :: (sp i ++ ('}' :: rest)))))))) =
        Except.ok (v, ',' :: ('\n' :: (printMembersJ ind m2 ms2 ++
          ('\n' :: (sp i ++ ('}' :: rest)))))) := by
      have h0 := hm (f + jfuelMembers (m2 :: ms2)) ind [' ']
        (',' :: ('\n' :: (printMembersJ ind m2 ms2 ++
          ('\n' :: (sp i ++ ('}' :: rest))))))
        (by intro c hc; simp at hc; subst hc; decide)
        (by simp [NotDigitHead])
      simpa using h0
    have hrec := ih m2 hm2 hms2 (f + jfuel v) ['\n']
      (by intro c hc; simp at hc; subst hc; decide)
    rw [List.singleton_append] at hrec
    rw [show f + jfuel v + jfuelMembers (m2 :: ms2) =
        f + jfuelMembers (m2 :: ms2) + jfuel v from by omega] at hrec
    rw [printMembersJ]
    simp only [parseMembers]
    simp [skipWs_append_ws, hpre, AllWs_sp, skipWs, escStr, parseStrBody_escBody,
      hv, hrec, stringMk_data,
      (by decide : isWsChar '"' = false), (by decide : isWsChar ':' = false),
      (by decide : isWsChar ',' = false), (by decide : isWsChar '}' = false),
      (by decide : isWsChar '\n' = true)]

theorem parseItems_print (ind i : Nat) (rest : List Char) :
    ∀ (xs : List Json) (x : Json), ParsesAtP x → (∀ y ∈ xs, ParsesAtP y) →
      ∀ (f : Nat) (pre : List Char), AllWs pre →
      parseItems (f + jfuelItems (x :: xs))
          (pre ++ (printItemsJ ind x xs ++ ('\n' :: (sp i ++ (']' :: rest))))) =
        .ok (x :: xs, rest) := by
  intro xs
  induction xs with
  | nil =>
    intro x hx _ f pre hpre
    have hfuel : f + jfuelItems [x] = (f + jfuel x) + 1 := by
      simp [jfuelItems]
      omega
    rw [hfuel]
    have hv := hx f ind (pre ++ sp ind) ('\n' :: (sp i ++ (']' :: rest)))
      (AllWs_append hpre (AllWs_sp ind))
      (by simp [NotDigitHead])
    simp only [List.append_assoc] at hv
    rw [printItemsJ]
    simp only [parseItems]
    simp [hv, skipWs, skipWs_append_ws, AllWs_sp,
      (by decide : isWsChar ']' = false), (by decide : isWsChar '\n' = true)]
  | cons y ys ih =>
    intro x hx hys f pre hpre
    have hy : ParsesAtP y := hys y (List.mem_cons_self _ _)
    have hys' : ∀ z ∈ ys, ParsesAtP z := fun z hz =>
      hys z (List.mem_cons_of_mem _ hz)
    have hfuel : f + jfuelItems (x :: y :: ys) =
        (f + jfuelItems (y :: ys) + jfuel x) + 1 := by
      simp [jfuelItems]
      omega
    rw [hfuel]
    have hv := hx (f + jfuelItems (y :: ys)) ind (pre ++ sp ind)
      (',' :: ('\n' :: (printItemsJ ind y ys ++ ('\n' :: (sp i ++ (']' :: rest))))))
      (AllWs_append hpre (AllWs_sp ind))
      (by simp [NotDigitHead])
    simp only [List.append_assoc] at hv
    have hrec := ih y hy hys' (f + jfuel x) ['\n']
      (by intro c hc; simp at hc; subst hc; decide)
    rw [List.singleton_append] at hrec
    rw [show f + jfuel x + jfuelItems (y :: ys) =
        f + jfuelItems (y :: ys) + jfuel x from by omega] at hrec
    rw [printItemsJ]
    simp only [parseItems]
    simp [hv, hrec, skipWs, skipWs_append_ws, AllWs_sp,
      (by decide : isWsChar ']' = false), (by decide : isWsChar ',' = false),
      (by decide : isWsChar '\n' = true)]

theorem printJ_head (ind : Nat) (j : Json) :
    ∃ c Z, printJ ind j = c :: Z ∧ c ≠ ']' ∧ c ≠ '}' ∧ isWsChar c = false := by
  cases j with
  | null => exact ⟨'n', ['u', 'l', 'l'], by simp [printJ, jsNull, jsTrue, jsFalse], by decide, by decide, by decide⟩
  | bool b =>
    cases b
    · exact ⟨'f', ['a', 'l', 's', 'e'], by simp [printJ, jsNull, jsTrue, jsFalse], by decide, by decide, by decide⟩
    · exact ⟨'t', ['r', 'u', 'e'], by simp [printJ, jsNull, jsTrue, jsFalse], by decide, by decide, by decide⟩
  | num n =>
    by_cases hn : n < 0
    · exact ⟨'-', natDigits n.natAbs, by simp [printJ, printInt, hn], by decide,
        by decide, by decide⟩
    · obtain ⟨c, ds, hnd⟩ : ∃ c ds, natDigits n.natAbs = c :: ds := by
        cases h : natDigits n.natAbs with
        | nil => exact absurd h (natDigits_ne_nil _)
        | cons c ds => exact ⟨c, ds, rfl⟩
      have hdig : c.isDigit = true :=
        natDigits_all_digits _ c (by rw [hnd]; exact List.mem_cons_self _ _)
      refine ⟨c, ds, ?_, ?_, ?_, (digit_guards c hdig).2.2.2.2.2.2.2⟩
      · simp [printJ, printInt, hn, hnd]
      · intro e; rw [e] at hdig; exact absurd hdig (by decide)
      · intro e; rw [e] at hdig; exact absurd hdig (by decide)
  | str s =>
    exact ⟨'"', escBody s.data ++ ['"'], by simp [printJ, escStr], by decide,
      by decide, by decide⟩
  | arr xs =>
    cases xs with
    | nil => exact ⟨'[', [']'], by simp [printJ, jsNull, jsTrue, jsFalse], by decide, by decide, by decide⟩
    | cons x xs =>
      exact ⟨'[', '\n' :: (printItemsJ (ind + 2) x xs ++ ('\n' :: (sp ind ++ [']']))),
        by simp [printJ, jsNull, jsTrue, jsFalse], by decide, by decide, by decide⟩
  | obj ms =>
    cases ms with
    | nil => exact ⟨'{', ['}'], by simp [printJ, jsNull, jsTrue, jsFalse], by decide, by decide, by decide⟩
    | cons m ms =>
      exact ⟨'{', '\n' :: (printMembersJ (ind + 2) m ms ++ ('\n' :: (sp ind ++ ['}']))),
        by simp [printJ, jsNull, jsTrue, jsFalse], by decide, by decide, by decide⟩

theorem skipWs_printMembersJ_head (ind : Nat) (m : String × Json)
    (ms : List (String × Json)) (X : List Char) :
    ∃ Z, skipWs (printMembersJ ind m ms ++ X) = '"' :: Z := by
  cases ms with
  | nil =>
    refine ⟨escBody m.1.data ++ ('"' :: (':' :: (' ' :: (printJ ind m.2 ++ X)))), ?_⟩
    simp [printMembersJ, escStr, skipWs_append_ws, AllWs_sp, skipWs,
      (by decide : isWsChar '"' = false)]
  | cons m2 ms2 =>
    refine ⟨escBody m.1.data ++ ('"' :: (':' :: (' ' :: (printJ ind m.2 ++
      (',' :: ('\n' :: (printMembersJ ind m2 ms2 ++ X))))))), ?_⟩
    simp [printMembersJ, escStr, skipWs_append_ws, AllWs_sp, skipWs,
      (by decide : isWsChar '"' = false)]

theorem skipWs_printItemsJ_head (ind : Nat) (x : Json) (xs : List Json)
    (X : List Char) :
    ∃ c Z, skipWs (printItemsJ ind x xs ++ X) = c :: Z ∧ c ≠ ']' ∧ c ≠ '}' := by
  obtain ⟨c, Z0, hcz, h1, h2, h3⟩ := printJ_head ind x
  cases xs with
  | nil =>
    refine ⟨c, Z0 ++ X, ?_, h1, h2⟩
    rw [printItemsJ, List.append_assoc, skipWs_append_ws _ (AllWs_sp ind), hcz,
      List.cons_append, skipWs_cons_not c _ h3]
  | cons y ys =>
    refine ⟨c, Z0 ++ (',' :: ('\n' :: (printItemsJ ind y ys ++ X))), ?_, h1, h2⟩
    rw [printItemsJ]
    rw [List.append_assoc, skipWs_append_ws _ (AllWs_sp ind), List.append_assoc,
      hcz, List.cons_append, skipWs_cons_not c _ h3]
    simp

theorem parsesAtP_obj (ms : List (String × Json))
    (h : ∀ x ∈ ms, ParsesAtP x.2) : ParsesAtP (.obj ms) := by
  cases ms with
  | nil =>
    intro f ind pre rest hpre hrest
    rw [show f + jfuel (Json.obj []) = f + 1 from by simp [jfuel, jfuelMembers]]
    rw [show printJ ind (Json.obj []) = ['{', '}'] from by simp [printJ, jsNull, jsTrue, jsFalse]]
    simp only [parseVal]
    rw [show (['{', '}'] : List Char) ++ rest = '{' :: ('}' :: rest) from by simp]
    rw [skipWs_append_ws _ hpre]
    simp [skipWs, (by decide : isWsChar '{' = false),
      (by decide : isWsChar '}' = false)]
  | cons m ms' =>
    intro f ind pre rest hpre hrest
    have hm : ParsesAtP m.2 := h m (List.mem_cons_self _ _)
    have hms' : ∀ x ∈ ms', ParsesAtP x.2 := fun x hx =>
      h x (List.mem_cons_of_mem _ hx)
    rw [show f + jfuel (Json.obj (m :: ms')) = (f + jfuelMembers (m :: ms')) + 1
      from by simp [jfuel]; omega]
    rw [show printJ ind (Json.obj (m :: ms')) =
      '{' :: ('\n' :: (printMembersJ (ind + 2) m ms' ++ ('\n' :: (sp ind ++ ['}']))))
      from by simp [printJ, jsNull, jsTrue, jsFalse]]
    have hrec := parseMembers_print (ind + 2) ind rest ms' m hm hms' f [] AllWs_nil
    rw [List.nil_append] at hrec
    simp only [parseVal]
    rw [show ('{' :: ('\n' :: (printMembersJ (ind + 2) m ms' ++
        ('\n' :: (sp ind ++ ['}'])))) ++ rest) =
      '{' :: ('\n' :: (printMembersJ (ind + 2) m ms' ++
        ('\n' :: (sp ind ++ ('}' :: rest))))) from by simp]
    rw [skipWs_append_ws _ hpre, skipWs_cons_not '{' _ (by decide)]
    obtain ⟨Z, hZ⟩ := skipWs_printMembersJ_head (ind + 2) m ms'
      ('\n' :: (sp ind ++ ('}' :: rest)))
    simp only [skipWs, (by decide : isWsChar '\n' = true), if_true,
      (by decide : (('{' : Char) = 'n') = False),
      (by decide : (('{' : Char) = 't') = False),
      (by decide : (('{' : Char) = 'f') = False),
      (by decide : (('{' : Char) = '"') = False),
      (by decide : (('{' : Char) = '[') = False),
      (by decide : (('{' : Char) = '{') = True), if_false]
    have hpm : parseMembers (f + jfuelMembers (m :: ms'))
        (skipWs (printMembersJ (ind + 2) m ms' ++
          ('\n' :: (sp ind ++ ('}' :: rest))))) =
        Except.ok (m :: ms', rest) := by
      rw [parseMembers_skipWs]
      exact hrec
    rw [hZ] at hpm
    rw [hZ]
    simp [hpm]

theorem parsesAtP_arr (xs : List Json) (h : ∀ x ∈ xs, ParsesAtP x) :
    ParsesAtP (.arr xs) := by
  cases xs with
  | nil =>
    intro f ind pre rest hpre hrest
    rw [show f + jfuel (Json.arr []) = f + 1 from by simp [jfuel, jfuelItems]]
    rw [show printJ ind (Json.arr []) = ['[', ']'] from by simp [printJ, jsNull, jsTrue, jsFalse]]
    simp only [parseVal]
    rw [show (['[', ']'] : List Char) ++ rest = '[' :: (']' :: rest) from by simp]
    rw [skipWs_append_ws _ hpre]
    simp [skipWs, (by decide : isWsChar '[' = false),
      (by decide : isWsChar ']' = false)]
  | cons x xs' =>
    intro f ind pre rest hpre hrest
    have hx : ParsesAtP x := h x (List.mem_cons_self _ _)
    have hxs' : ∀ y ∈ xs', ParsesAtP y := fun y hy =>
      h y (List.mem_cons_of_mem _ hy)
    rw [show f + jfuel (Json.arr (x :: xs')) = (f + jfuelItems (x :: xs')) + 1
      from by simp [jfuel]; omega]
    rw [show printJ ind (Json.arr (x :: xs')) =
      '[' :: ('\n' :: (printItemsJ (ind + 2) x xs' ++ ('\n' :: (sp ind ++ [']']))))
      from by simp [printJ, jsNull, jsTrue, jsFalse]]
    have hrec := parseItems_print (ind + 2) ind rest xs' x hx hxs' f [] AllWs_nil
    rw [List.nil_append] at hrec
    simp only [parseVal]
    rw [show ('[' :: ('\n' :: (printItemsJ (ind + 2) x xs' ++
        ('\n' :: (sp ind ++ [']'])))) ++ rest) =
      '[' :: ('\n' :: (printItemsJ (ind + 2) x xs' ++
        ('\n' :: (sp ind ++ (']' :: rest))))) from by simp]
    rw [skipWs_append_ws _ hpre, skipWs_cons_not '[' _ (by decide)]
    obtain ⟨c, Z, hcz, hne, _⟩ := skipWs_printItemsJ_head (ind + 2) x xs'
      ('\n' :: (sp ind ++ (']' :: rest)))
    simp only [skipWs, (by decide : isWsChar '\n' = true), if_true,
      (by decide : (('[' : Char) = 'n') = False),
      (by decide : (('[' : Char) = 't') = False),
      (by decide : (('[' : Char) = 'f') = False),
      (by decide : (('[' : Char) = '"') = False),
      (by decide : (('[' : Char) = '[') = True), if_false]
    have hpi : parseItems (f + jfuelItems (x :: xs'))
        (skipWs (printItemsJ (ind + 2) x xs' ++
          ('\n' :: (sp ind ++ (']' :: rest))))) =
        Except.ok (x :: xs', rest) := by
      rw [parseItems_skipWs]
      exact hrec
    rw [hcz] at hpi
    rw [hcz]
    split
    next r heq =>
      rw [List.cons.injEq] at heq
      exact absurd heq.1 hne
    next r1 heq =>
      rw [hpi]

theorem printJ_length_pos (ind : Nat) (j : Json) : 1 ≤ (printJ ind j).length := by
  obtain ⟨c, Z, hcz, _, _, _⟩ := printJ_head ind j
  rw [hcz]
  simp

theorem jfuel_le_printJ : ∀ (n : Nat) (j : Json), sizeOf j ≤ n → ∀ ind,
    jfuel j + 1 ≤ 2 * (printJ ind j).length := by
  intro n
  induction n using Nat.strong_induction_on with
  | _ n ih =>
    intro j hsz ind
    cases j with
    | null => simp [jfuel, printJ, jsNull, jsTrue, jsFalse]
    | bool b => cases b <;> simp [jfuel, printJ, jsNull, jsTrue, jsFalse]
    | num m =>
      have h1 : 1 ≤ (printJ ind (Json.num m)).length := printJ_length_pos ind _
      rw [show jfuel (Json.num m) = 1 from by simp [jfuel]]
      omega
    | str s =>
      have h1 : 1 ≤ (printJ ind (Json.str s)).length := printJ_length_pos ind _
      rw [show jfuel (Json.str s) = 1 from by simp [jfuel]]
      omega
    | arr xs =>
      cases xs with
      | nil => simp [jfuel, jfuelItems, printJ, jsNull, jsTrue, jsFalse]
      | cons x xs' =>
        have helem : ∀ y ∈ x :: xs', ∀ ind3,
            jfuel y + 1 ≤ 2 * (printJ ind3 y).length := by
          intro y hy ind3
          have hlt : sizeOf y < n := by
            have h1 := List.sizeOf_lt_of_mem hy
            have h2 : sizeOf (Json.arr (x :: xs')) = 1 + sizeOf (x :: xs') := by
              simp
            omega
          exact ih (sizeOf y) hlt y (le_refl _) ind3
        have hitems : ∀ (ys : List Json) (y : Json) (ind2 : Nat),
            (∀ z ∈ y :: ys, ∀ ind3, jfuel z + 1 ≤ 2 * (printJ ind3 z).length) →
            jfuelItems (y :: ys) ≤ 2 * (printItemsJ ind2 y ys).length := by
          intro ys
          induction ys with
          | nil =>
            intro y ind2 hz
            have h1 := hz y (List.mem_cons_self _ _) ind2
            simp only [jfuelItems, printItemsJ, List.length_append, sp,
              List.length_replicate]
            omega
          | cons z zs ihz =>
            intro y ind2 hz
            have h1 := hz y (List.mem_cons_self _ _) ind2
            have h2 := ihz z ind2 fun w hw ind3 =>
              hz w (List.mem_cons_of_mem _ hw) ind3
            simp only [jfuelItems, printItemsJ, List.length_append, sp,
              List.length_replicate, List.length_cons] at *
            omega
        have hmain := hitems xs' x (ind + 2) helem
        rw [show jfuel (Json.arr (x :: xs')) = 1 + jfuelItems (x :: xs') from by
          simp [jfuel]]
        rw [show printJ ind (Json.arr (x :: xs')) =
          '[' :: ('\n' :: (printItemsJ (ind + 2) x xs' ++ ('\n' :: (sp ind ++ [']']))))
          from by simp [printJ, jsNull, jsTrue, jsFalse]]
        simp only [List.length_cons, List.length_append, sp, List.length_replicate]
        omega
    | obj ms =>
      cases ms with
      | nil => simp [jfuel, jfuelMembers, printJ, jsNull, jsTrue, jsFalse]
      | cons m ms' =>
        have helem : ∀ y ∈ m :: ms', ∀ ind3,
            jfuel y.2 + 1 ≤ 2 * (printJ ind3 y.2).length := by
          intro y hy ind3
          have hlt : sizeOf y.2 < n := by
            have h1 := List.sizeOf_lt_of_mem hy
            have h2 : sizeOf (Json.obj (m :: ms')) = 1 + sizeOf (m :: ms') := by
              simp
            have h3 : sizeOf y.2 < sizeOf y := by
              rcases y with ⟨a, b⟩
              simp only [Prod.mk.sizeOf_spec]
              omega
            omega
          exact ih (sizeOf y.2) hlt y.2 (le_refl _) ind3
        have hmembers : ∀ (ys : List (String × Json)) (y : String × Json)
            (ind2 : Nat),
            (∀ z ∈ y :: ys, ∀ ind3, jfuel z.2 + 1 ≤ 2 * (printJ ind3 z.2).length) →
            jfuelMembers (y :: ys) ≤ 2 * (printMembersJ ind2 y ys).length := by
          intro ys
          induction ys with
          | nil =>
            intro y ind2 hz
            have h1 := hz y (List.mem_cons_self _ _) ind2
            simp only [jfuelMembers, printMembersJ, List.length_append, sp,
              List.length_replicate, List.length_cons]
            omega
          | cons z zs ihz =>
            intro y ind2 hz
            have h1 := hz y (List.mem_cons_self _ _) ind2
            have h2 := ihz z ind2 fun w hw ind3 =>
              hz w (List.mem_cons_of_mem _ hw) ind3
            simp only [jfuelMembers, printMembersJ, List.length_append, sp,
              List.length_replicate, List.length_cons] at *
            omega
        have hmain := hmembers ms' m (ind + 2) helem
        rw [show jfuel (Json.obj (m :: ms')) = 1 + jfuelMembers (m :: ms') from by
          simp [jfuel]]
        rw [show printJ ind (Json.obj (m :: ms')) =
          '{' :: ('\n' :: (printMembersJ (ind + 2) m ms' ++ ('\n' :: (sp ind ++ ['}']))))
          from by simp [printJ, jsNull, jsTrue, jsFalse]]
        simp only [List.length_cons, List.length_append, sp, List.length_replicate]
        omega

theorem parseJson_print (j : Json) (hj : ParsesAtP j) :
    parseJson (String.mk (printJ 0 j)) = .ok j := by
  have hslen : (String.mk (printJ 0 j)).length = (printJ 0 j).length := rfl
  have hdata : (String.mk (printJ 0 j)).data = printJ 0 j := rfl
  have hbound := jfuel_le_printJ (sizeOf j) j (le_refl _) 0
  have h := hj (2 * (printJ 0 j).length + 2 - jfuel j) 0 [] [] AllWs_nil
    (by simp [NotDigitHead])
  rw [List.nil_append, List.append_nil] at h
  rw [parseJson, hslen, hdata]
  rw [show 2 * (printJ 0 j).length + 2 =
    (2 * (printJ 0 j).length + 2 - jfuel j) + jfuel j from by omega]
  rw [h]
  simp [skipWs]

theorem scalar_optStrMember (k : String) (o : Option String) :
    ∀ x ∈ optStrMember k o, ScalarV x.2 := by
  cases o with
  | none => intro x hx; simp [optStrMember, optMember] at hx
  | some v =>
    intro x hx
    simp [optStrMember, optMember] at hx
    rw [hx]
    exact Or.inl ⟨v, rfl⟩

theorem scalar_optNumMember (k : String) (o : Option Int) :
    ∀ x ∈ optNumMember k o, ScalarV x.2 := by
  cases o with
  | none => intro x hx; simp [optNumMember, optMember] at hx
  | some v =>
    intro x hx
    simp [optNumMember, optMember] at hx
    rw [hx]
    exact Or.inr ⟨v, rfl⟩

theorem parsesAtP_jsonOfCustomer (c : Customer) : ParsesAtP (jsonOfCustomer c) := by
  rw [jsonOfCustomer]
  apply parsesAtP_obj
  intro x hx
  apply parseVal_print_scalar
  rcases List.mem_append.mp hx with h1 | h2
  · simp at h1
    rcases h1 with h1 | h1 <;> (rw [h1]; exact Or.inl ⟨_, rfl⟩)
  · rcases List.mem_append.mp h2 with h3 | h4
    · exact scalar_optStrMember _ _ x h3
    · exact scalar_optStrMember _ _ x h4

theorem parsesAtP_jsonOfTechnician (t : Technician) :
    ParsesAtP (jsonOfTechnician t) := by
  rw [jsonOfTechnician]
  apply parsesAtP_obj
  intro x hx
  apply parseVal_print_scalar
  simp at hx
  rcases hx with h1 | h1 <;> (rw [h1]; exact Or.inl ⟨_, rfl⟩)

theorem parsesAtP_jsonOfDevice (d : Device) : ParsesAtP (jsonOfDevice d) := by
  rw [jsonOfDevice]
  apply parsesAtP_obj
  intro x hx
  apply parseVal_print_scalar
  rcases List.mem_append.mp hx with h1 | h2
  · simp at h1
    rcases h1 with h1 | h1 <;> (rw [h1]; exact Or.inl ⟨_, rfl⟩)
  · rcases List.mem_append.mp h2 with h3 | h4
    · exact scalar_optStrMember _ _ x h3
    · rcases List.mem_append.mp h4 with h5 | h6
      · exact scalar_optStrMember _ _ x h5
      · exact scalar_optStrMember _ _ x h6

theorem parsesAtP_jsonOfTicket (t : Ticket) : ParsesAtP (jsonOfTicket t) := by
  rw [jsonOfTicket]
  apply parsesAtP_obj
  intro x hx
  apply parseVal_print_scalar
  rcases List.mem_append.mp hx with h1 | h2
  · simp at h1
    rcases h1 with h1 | h1 | h1 | h1 | h1 | h1 | h1 <;>
      (rw [h1]; exact Or.inl ⟨_, rfl⟩)
  · rcases List.mem_append.mp h2 with h3 | h4
    · exact scalar_optStrMember _ _ x h3
    · rcases List.mem_append.mp h4 with h5 | h6
      · exact scalar_optNumMember _ _ x h5
      · exact scalar_optStrMember _ _ x h6

theorem parsesAtP_optMember {k : String} {o : Option Json}
    (h : ∀ v, o = some v → ParsesAtP v) :
    ∀ x ∈ optMember k o, ParsesAtP x.2 := by
  cases o with
  | none => intro x hx; simp [optMember] at hx
  | some v =>
    intro x hx
    simp [optMember] at hx
    rw [hx]
    exact h v rfl

theorem parsesAtP_jsonOfPatch (oc : Option (List Customer))
    (ot : Option (List Technician)) (od : Option (List Device))
    (otk : Option (List Ticket)) :
    ParsesAtP (jsonOfPatch oc ot od otk) := by
  rw [jsonOfPatch]
  apply parsesAtP_obj
  intro x hx
  rcases List.mem_append.mp hx with h1 | h2
  · refine parsesAtP_optMember ?_ x h1
    intro v hv
    rcases oc with _ | l
    · simp at hv
    · simp at hv
      rw [← hv]
      apply parsesAtP_arr
      intro y hy
      rw [List.mem_map] at hy
      obtain ⟨e, _, he⟩ := hy
      rw [← he]
      exact parsesAtP_jsonOfCustomer e
  · rcases List.mem_append.mp h2 with h3 | h4
    · refine parsesAtP_optMember ?_ x h3
      intro v hv
      rcases ot with _ | l
      · simp at hv
      · simp at hv
        rw [← hv]
        apply parsesAtP_arr
        intro y hy
        rw [List.mem_map] at hy
        obtain ⟨e, _, he⟩ := hy
        rw [← he]
        exact parsesAtP_jsonOfTechnician e
    · rcases List.mem_append.mp h4 with h5 | h6
      · refine parsesAtP_optMember ?_ x h5
        intro v hv
        rcases od with _ | l
        · simp at hv
        · simp at hv
          rw [← hv]
          apply parsesAtP_arr
          intro y hy
          rw [List.mem_map] at hy
          obtain ⟨e, _, he⟩ := hy
          rw [← he]
          exact parsesAtP_jsonOfDevice e
      · refine parsesAtP_optMember ?_ x h6
        intro v hv
        rcases otk with _ | l
        · simp at hv
        · simp at hv
          rw [← hv]
          apply parsesAtP_arr
          intro y hy
          rw [List.mem_map] at hy
          obtain ⟨e, _, he⟩ := hy
          rw [← he]
          exact parsesAtP_jsonOfTicket e

theorem statusOfString_statusString (st : Status) :
    statusOfString (statusString st) = some st := by
  cases st <;> rfl

theorem decodeCustomer_jsonOf (c : Customer) :
    decodeCustomer (jsonOfCustomer c) = some c := by
  rcases c with ⟨i, nm, ph, em⟩
  cases ph <;> cases em <;>
    simp [jsonOfCustomer, decodeCustomer, optStrMember, optMember, lookupLast,
      asString]

theorem decodeTechnician_jsonOf (t : Technician) :
    decodeTechnician (jsonOfTechnician t) = some t := by
  rcases t with ⟨i, nm⟩
  simp [jsonOfTechnician, decodeTechnician, lookupLast, asString]

theorem decodeDevice_jsonOf (d : Device) :
    decodeDevice (jsonOfDevice d) = some d := by
  rcases d with ⟨i, ty, br, mo, se⟩
  cases br <;> cases mo <;> cases se <;>
    simp [jsonOfDevice, decodeDevice, optStrMember, optMember, lookupLast,
      asString]

theorem decodeTicket_jsonOf (t : Ticket) :
    decodeTicket (jsonOfTicket t) = some t := by
  rcases t with ⟨i, ca, ua, ci, di, pd, st, ti, ec, no⟩
  cases ti <;> cases ec <;> cases no <;>
    simp [jsonOfTicket, decodeTicket, optStrMember, optNumMember, optMember,
      lookupLast, asString, asInt, statusOfString_statusString]

theorem decodeList_map {α : Type} (dec : Json → Option α) (enc : α → Json)
    (h : ∀ e, dec (enc e) = some e) :
    ∀ l : List α, decodeList dec (.arr (l.map enc)) = l
  | [] => rfl
  | e :: l => by
    simp only [decodeList, List.map_cons, List.filterMap_cons, h e]
    have := decodeList_map dec enc h l
    simp only [decodeList] at this
    rw [this]

theorem collectionOf_encoded {α : Type} (dec : Json → Option α) (enc : α → Json)
    (h : ∀ e, dec (enc e) = some e) (o : Option (List α)) :
    collectionOf dec (o.map fun l => .arr (l.map enc)) = o.getD [] := by
  cases o with
  | none => rfl
  | some l =>
    simp only [Option.map_some', collectionOf, Option.getD_some]
    exact decodeList_map dec enc h l

theorem lookupLast_append_right_none {k : String} {b : List (String × Json)}
    (h : lookupLast k b = none) :
    ∀ a, lookupLast k (a ++ b) = lookupLast k a := by
  intro a
  induction a with
  | nil => simp [lookupLast, h]
  | cons m a ih => simp [lookupLast, ih]

theorem lookupLast_append_right_some {k : String} {b : List (String × Json)}
    {v : Json} (h : lookupLast k b = some v) :
    ∀ a, lookupLast k (a ++ b) = some v := by
  intro a
  induction a with
  | nil => simpa using h
  | cons m a ih => simp [lookupLast, ih]

theorem lookupLast_optMember_ne {k k2 : String} (o : Option Json) (h : k2 ≠ k) :
    lookupLast k (optMember k2 o) = none := by
  cases o <;> simp [optMember, lookupLast, h]

theorem lookupLast_optMember_self (k : String) (o : Option Json) :
    lookupLast k (optMember k o) = o := by
  cases o <;> simp [optMember, lookupLast]

theorem lookupLast_append (k : String) (a b : List (String × Json)) :
    lookupLast k (a ++ b) =
      match lookupLast k b with
      | some v => some v
      | none => lookupLast k a := by
  cases hb : lookupLast k b with
  | none => rw [lookupLast_append_right_none hb]
  | some v => rw [lookupLast_append_right_some hb]

theorem lookupLast_append_left_none {k : String} {a : List (String × Json)}
    (h : lookupLast k a = none) (b : List (String × Json)) :
    lookupLast k (a ++ b) = lookupLast k b := by
  rw [lookupLast_append]
  cases hb : lookupLast k b with
  | none => exact h
  | some v => rfl

theorem memberOf_jsonOfPatch (oc : Option (List Customer))
    (ot : Option (List Technician)) (od : Option (List Device))
    (otk : Option (List Ticket)) :
    memberOf (jsonOfPatch oc ot od otk) "customers" =
        (oc.map fun l => Json.arr (l.map jsonOfCustomer)) ∧
      memberOf (jsonOfPatch oc ot od otk) "technicians" =
        (ot.map fun l => Json.arr (l.map jsonOfTechnician)) ∧
      memberOf (jsonOfPatch oc ot od otk) "devices" =
        (od.map fun l => Json.arr (l.map jsonOfDevice)) ∧
      memberOf (jsonOfPatch oc ot od otk) "tickets" =
        (otk.map fun l => Json.arr (l.map jsonOfTicket)) := by
  refine ⟨?_, ?_, ?_, ?_⟩
  · rw [jsonOfPatch, memberOf]
    have h1 : lookupLast "customers"
        (optMember "tickets" (otk.map fun l => Json.arr (l.map jsonOfTicket))) =
        none := lookupLast_optMember_ne _ (by decide)
    have h2 : lookupLast "customers"
        (optMember "devices" (od.map fun l => Json.arr (l.map jsonOfDevice)) ++
          optMember "tickets" (otk.map fun l => Json.arr (l.map jsonOfTicket))) =
        none := by
      rw [lookupLast_append_right_none h1]
      exact lookupLast_optMember_ne _ (by decide)
    have h3 : lookupLast "customers"
        (optMember "technicians" (ot.map fun l => Json.arr (l.map jsonOfTechnician)) ++
          (optMember "devices" (od.map fun l => Json.arr (l.map jsonOfDevice)) ++
            optMember "tickets" (otk.map fun l => Json.arr (l.map jsonOfTicket)))) =
        none := by
      rw [lookupLast_append_right_none h2]
      exact lookupLast_optMember_ne _ (by decide)
    rw [lookupLast_append_right_none h3]
    exact lookupLast_optMember_self _ _
  · rw [jsonOfPatch, memberOf]
    rw [lookupLast_append_left_none (lookupLast_optMember_ne _ (by decide))]
    have h1 : lookupLast "technicians"
        (optMember "devices" (od.map fun l => Json.arr (l.map jsonOfDevice)) ++
          optMember "tickets" (otk.map fun l => Json.arr (l.map jsonOfTicket))) =
        none := by
      rw [lookupLast_append_right_none (lookupLast_optMember_ne _ (by decide))]
      exact lookupLast_optMember_ne _ (by decide)
    rw [lookupLast_append_right_none h1]
    exact lookupLast_optMember_self _ _
  · rw [jsonOfPatch, memberOf]
    rw [lookupLast_append_left_none (lookupLast_optMember_ne _ (by decide))]
    rw [lookupLast_append_left_none (lookupLast_optMember_ne _ (by decide))]
    rw [lookupLast_append_right_none (lookupLast_optMember_ne _ (by decide))]
    exact lookupLast_optMember_self _ _
  · rw [jsonOfPatch, memberOf]
    rw [lookupLast_append_left_none (lookupLast_optMember_ne _ (by decide))]
    rw [lookupLast_append_left_none (lookupLast_optMember_ne _ (by decide))]
    rw [lookupLast_append_left_none (lookupLast_optMember_ne _ (by decide))]
    exact lookupLast_optMember_self _ _

theorem importAll_printed_patch (oc : Option (List Customer))
    (ot : Option (List Technician)) (od : Option (List Device))
    (otk : Option (List Ticket)) (s : State) :
    importAll (String.mk (printJ 0 (jsonOfPatch oc ot od otk))) s =
      (none, { customers := oc.getD [], technicians := ot.getD [],
               devices := od.getD [], tickets := otk.getD [] }) := by
  have hparse := parseJson_print _ (parsesAtP_jsonOfPatch oc ot od otk)
  obtain ⟨hc, ht, hd, hk⟩ := memberOf_jsonOfPatch oc ot od otk
  simp only [importAll, hparse]
  show (none, importedState (jsonOfPatch oc ot od otk)) = _
  rw [importedState, hc, ht, hd, hk,
    collectionOf_encoded decodeCustomer jsonOfCustomer decodeCustomer_jsonOf oc,
    collectionOf_encoded decodeTechnician jsonOfTechnician
      decodeTechnician_jsonOf ot,
    collectionOf_encoded decodeDevice jsonOfDevice decodeDevice_jsonOf od,
    collectionOf_encoded decodeTicket jsonOfTicket decodeTicket_jsonOf otk]

theorem jsonOfState_eq_patch (s : State) :
    jsonOfState s = jsonOfPatch (some s.customers) (some s.technicians)
      (some s.devices) (some s.tickets) := by
  simp [jsonOfState, jsonOfPatch, optMember]

/-- C1: for every store state, importing the export succeeds and restores all
four collections exactly. -/
theorem c1_export_import_roundtrip (s : State) :
    importAll (exportAll s) s = (none, s) := by
  have h : exportAll s =
      String.mk (printJ 0 (jsonOfPatch (some s.customers) (some s.technicians)
        (some s.devices) (some s.tickets))) := by
    rw [exportAll, jsonOfState_eq_patch]
  rw [h, importAll_printed_patch]
  rfl

/-- C4: on any text the JSON parser rejects, `importAll` returns that error
message (a non-null string) and leaves the state exactly as it was. -/
theorem c4_importAll_invalid_json (txt : String) (s : State) (e : String)
    (h : parseJson txt = .error e) : importAll txt s = (some e, s) := by
  simp only [importAll, h]

theorem c4_importAll_invalid_json_witness :
    importAll "not json" demoState = (some "Unexpected token", demoState) :=
  c4_importAll_invalid_json "not json" demoState "Unexpected token" (by rfl)

/-- C5: importing the printed form of any four-collection-shaped object
succeeds, replaces every collection wholesale with the parsed one, and
defaults every absent key to the empty collection — nothing is merged with or
kept from the pre-existing state. -/
theorem c5_importAll_shape_wholesale (oc : Option (List Customer))
    (ot : Option (List Technician)) (od : Option (List Device))
    (otk : Option (List Ticket)) (s : State) :
    importAll (String.mk (printJ 0 (jsonOfPatch oc ot od otk))) s =
      (none, { customers := oc.getD [], technicians := ot.getD [],
               devices := od.getD [], tickets := otk.getD [] }) :=
  importAll_printed_patch oc ot od otk s

/-- C10: `importAll` accepts any parsed non-null value: when the value carries
none of the four collection keys (e.g. the text "5"), every collection becomes
empty and no error is returned; the text "null" parses successfully but the
first property access throws, so an error string is returned and the state is
untouched. -/
theorem c10_importAll_nonobject :
    (∀ (txt : String) (s : State) (j : Json), parseJson txt = .ok j →
      j ≠ Json.null → memberOf j "customers" = none →
      memberOf j "technicians" = none → memberOf j "devices" = none →
      memberOf j "tickets" = none →
      importAll txt s = (none, State.mk [] [] [] [])) ∧
    (∀ s : State, importAll "null" s =
      (some "Cannot read properties of null (reading customers)", s)) := by
  constructor
  · intro txt s j hp hnull hc ht hd hk
    cases j with
    | null => exact absurd rfl hnull
    | bool b =>
      simp only [importAll, hp]
      rfl
    | num n =>
      simp only [importAll, hp]
      rfl
    | str str =>
      simp only [importAll, hp]
      rfl
    | arr xs =>
      simp only [importAll, hp]
      rfl
    | obj ms =>
      simp only [importAll, hp]
      show (none, importedState (Json.obj ms)) = _
      rw [importedState, hc, ht, hd, hk]
      rfl
  · intro s
    rfl

theorem c10_importAll_nonobject_witness :
    importAll "5" demoState = (none, State.mk [] [] [] []) ∧
      importAll "null" demoState =
        (some "Cannot read properties of null (reading customers)", demoState) :=
  ⟨c10_importAll_nonobject.1 "5" demoState (Json.num 5) (by rfl)
      (by intro h; exact Json.noConfusion h) rfl rfl rfl rfl,
    c10_importAll_nonobject.2 demoState⟩
